import Mathlib

/-!
# Verification of the knyst_reverb FDN reverberation engines

Shallow embedding of the repository's two reverb algorithms and their shared
transform utilities, with audio samples modelled as exact rationals (`ℚ`).

* `hadamard?` / `hadamardMatrix` embed `hadamard::<N>()` from `src/lib.rs`
  (Sylvester construction guarded by a power-of-two assertion).
* `hadamard_recursive` embeds `matrix::hadamard_recursive` from
  `src/luffverb.rs` (the fuel argument only bounds the recursion depth; it is
  always called with fuel = length, which dominates the halving depth).
* `Householder.in_place` embeds `matrix::Householder::in_place` from
  `src/luffverb.rs`.

Randomness (`thread_rng` draws) is modelled by passing the drawn values as
explicit arguments that are validated against the ranges the source draws
from; a panic (empty `gen_range` range, failed assertion) is modelled as
`Option.none`.
-/

/-- Write the elements of `xs` into `buf` starting at `start`
(`buf[start..start+xs.len()].copy_from_slice(xs)`); callers keep
`start + xs.length ≤ buf.length`. -/
def setSlice {α : Type} (buf : List α) (start : ℕ) (xs : List α) : List α :=
  buf.take start ++ xs ++ buf.drop (start + xs.length)

/-- Entry `m[i][j]` of a matrix stored as a list of rows. -/
def getEntry (m : List (List ℚ)) (i j : ℕ) : ℚ :=
  (m.getD i []).getD j 0

/-- Set entry `m[i][j]` of a matrix stored as a list of rows. -/
def setEntry (m : List (List ℚ)) (i j : ℕ) (v : ℚ) : List (List ℚ) :=
  m.set i ((m.getD i []).set j v)

/-- One round of the Sylvester doubling loop in `hadamard` (`src/lib.rs`):
for `i, j < k` copy `m[i][j]` to `m[i+k][j]` and `m[i][j+k]` and write
`-m[i][j]` to `m[i+k][j+k]`.  The reads are at indices `< k` and the writes
at indices with a coordinate `≥ k`, exactly as in the imperative source. -/
def hadamardStep (m : List (List ℚ)) (k : ℕ) : List (List ℚ) :=
  (List.range k).foldl
    (fun m i =>
      (List.range k).foldl
        (fun m j =>
          let v := getEntry m i j
          setEntry (setEntry (setEntry m (i + k) j v) i (j + k) v) (i + k) (j + k) (-v))
        m)
    m

/-- The `while k < N { ...; k += k }` loop of `hadamard` (`src/lib.rs`).
The fuel argument only bounds the number of doublings (`≤ N` always
suffices since `k` doubles from 1). -/
def hadamardWhile : ℕ → List (List ℚ) → ℕ → ℕ → List (List ℚ)
  | 0, m, _, _ => m
  | fuel + 1, m, k, N => if k < N then hadamardWhile fuel (hadamardStep m k) (k + k) N else m

/-- The matrix built by `hadamard::<N>()` (`src/lib.rs`): start from the zero
matrix with `m[0][0] = 1` and run the Sylvester doubling loop. -/
def hadamardMatrix (N : ℕ) : List (List ℚ) :=
  hadamardWhile N (setEntry (List.replicate N (List.replicate N 0)) 0 0 1) 1 N

/-- `hadamard::<N>()` (`src/lib.rs`) including its
`assert_eq!(N & (N - 1), 0)` power-of-two guard: `none` models the panic. -/
def hadamard? (N : ℕ) : Option (List (List ℚ)) :=
  if N &&& (N - 1) = 0 then some (hadamardMatrix N) else none

/-- Multiplication of a frame by a matrix as done in
`Diffuser::process_block` (`src/lib.rs`):
`sig2[row] += sig[column] * m[row][column]` for every column. -/
def matVec (m : List (List ℚ)) (v : List ℚ) : List ℚ :=
  m.map (fun row => (List.zipWith (fun a b => a * b) v row).sum)

/-- `matrix::hadamard_recursive` (`src/luffverb.rs`) with an explicit fuel
that dominates the recursion depth: frames of length `≤ 1` are unchanged,
longer frames are split at `d = len / 2`, both halves transformed, and the
halves recombined as `(a + b, a - b)` pairwise. -/
def hadamard_recursive_fuel : ℕ → List ℚ → List ℚ
  | 0, frame => frame
  | fuel + 1, frame =>
    if frame.length ≤ 1 then frame
    else
      let d := frame.length / 2
      let l := hadamard_recursive_fuel fuel (frame.take d)
      let r := hadamard_recursive_fuel fuel (frame.drop d)
      List.zipWith (fun a b => a + b) l r ++ List.zipWith (fun a b => a - b) l r

/-- `matrix::hadamard_recursive` (`src/luffverb.rs`); the frame length is
always enough fuel because each split at least halves the length. -/
def hadamard_recursive (frame : List ℚ) : List ℚ :=
  hadamard_recursive_fuel frame.length frame

namespace Householder

/-- `matrix::Householder::<CHANNELS>::in_place` (`src/luffverb.rs`): compute
`sum = Σ frame`, multiply by `MULTIPLIER = -2 / CHANNELS` (here the frame
length plays the role of the `CHANNELS` const generic), and add the result
to every element. -/
def in_place (frame : List ℚ) : List ℚ :=
  let sum := frame.sum * (-2 / (frame.length : ℚ))
  frame.map (fun f => f + sum)

end Householder

set_option maxRecDepth 8000 in
set_option maxHeartbeats 1600000 in
/-- C1: applying `hadamard_recursive` twice scales a frame of size N by N,
and so does applying the `hadamard::<N>()` matrix twice, for N ∈ {1, 2, 4, 16}. -/
theorem hadamard_twice_eq_smul :
    (∀ a : ℚ, hadamard_recursive (hadamard_recursive [a]) = [1 * a]) ∧
    (∀ a b : ℚ, hadamard_recursive (hadamard_recursive [a, b]) = [2 * a, 2 * b]) ∧
    (∀ a b c d : ℚ,
      hadamard_recursive (hadamard_recursive [a, b, c, d]) = [4 * a, 4 * b, 4 * c, 4 * d]) ∧
    (∀ v : List ℚ, v.length = 16 →
      hadamard_recursive (hadamard_recursive v) = v.map (fun x => 16 * x)) ∧
    (∀ a : ℚ, (hadamard? 1).elim [] (fun m => matVec m (matVec m [a])) = [1 * a]) ∧
    (∀ a b : ℚ, (hadamard? 2).elim [] (fun m => matVec m (matVec m [a, b])) = [2 * a, 2 * b]) ∧
    (∀ a b c d : ℚ,
      (hadamard? 4).elim [] (fun m => matVec m (matVec m [a, b, c, d]))
        = [4 * a, 4 * b, 4 * c, 4 * d]) ∧
    (∀ v : List ℚ, v.length = 16 →
      (hadamard? 16).elim [] (fun m => matVec m (matVec m v)) = v.map (fun x => 16 * x)) := by
  refine ⟨?_, ?_, ?_, ?_, ?_, ?_, ?_, ?_⟩
  · intro a
    simp [hadamard_recursive, hadamard_recursive_fuel]
  · intro a b
    simp [hadamard_recursive, hadamard_recursive_fuel]
    constructor <;> ring
  · intro a b c d
    simp [hadamard_recursive, hadamard_recursive_fuel]
    refine ⟨by ring, by ring, by ring, by ring⟩
  · intro v hv
    match v, hv with
    | [a0, a1, a2, a3, a4, a5, a6, a7, a8, a9, a10, a11, a12, a13, a14, a15], _ =>
      simp [hadamard_recursive, hadamard_recursive_fuel]
      refine ⟨by ring, by ring, by ring, by ring, by ring, by ring, by ring, by ring,
        by ring, by ring, by ring, by ring, by ring, by ring, by ring, by ring⟩
  · intro a
    have h : hadamard? 1 = some [[1]] := by decide
    simp [h, matVec]
  · intro a b
    have h : hadamard? 2 = some [[1, 1], [1, -1]] := by decide
    simp [h, matVec]
    constructor <;> ring
  · intro a b c d
    have h : hadamard? 4 = some [[1, 1, 1, 1], [1, -1, 1, -1], [1, 1, -1, -1], [1, -1, -1, 1]] := by
      decide
    simp [h, matVec]
    refine ⟨by ring, by ring, by ring, by ring⟩
  · intro v hv
    match v, hv with
    | [a0, a1, a2, a3, a4, a5, a6, a7, a8, a9, a10, a11, a12, a13, a14, a15], _ =>
      have h : hadamard? 16 = some
          [[1, 1, 1, 1, 1, 1, 1, 1, 1, 1, 1, 1, 1, 1, 1, 1],
           [1, -1, 1, -1, 1, -1, 1, -1, 1, -1, 1, -1, 1, -1, 1, -1],
           [1, 1, -1, -1, 1, 1, -1, -1, 1, 1, -1, -1, 1, 1, -1, -1],
           [1, -1, -1, 1, 1, -1, -1, 1, 1, -1, -1, 1, 1, -1, -1, 1],
           [1, 1, 1, 1, -1, -1, -1, -1, 1, 1, 1, 1, -1, -1, -1, -1],
           [1, -1, 1, -1, -1, 1, -1, 1, 1, -1, 1, -1, -1, 1, -1, 1],
           [1, 1, -1, -1, -1, -1, 1, 1, 1, 1, -1, -1, -1, -1, 1, 1],
           [1, -1, -1, 1, -1, 1, 1, -1, 1, -1, -1, 1, -1, 1, 1, -1],
           [1, 1, 1, 1, 1, 1, 1, 1, -1, -1, -1, -1, -1, -1, -1, -1],
           [1, -1, 1, -1, 1, -1, 1, -1, -1, 1, -1, 1, -1, 1, -1, 1],
           [1, 1, -1, -1, 1, 1, -1, -1, -1, -1, 1, 1, -1, -1, 1, 1],
           [1, -1, -1, 1, 1, -1, -1, 1, -1, 1, 1, -1, -1, 1, 1, -1],
           [1, 1, 1, 1, -1, -1, -1, -1, -1, -1, -1, -1, 1, 1, 1, 1],
           [1, -1, 1, -1, -1, 1, -1, 1, -1, 1, -1, 1, 1, -1, 1, -1],
           [1, 1, -1, -1, -1, -1, 1, 1, -1, -1, 1, 1, 1, 1, -1, -1],
           [1, -1, -1, 1, -1, 1, 1, -1, -1, 1, 1, -1, 1, -1, -1, 1]] := by decide
      simp [h, matVec]
      refine ⟨by ring, by ring, by ring, by ring, by ring, by ring, by ring, by ring,
        by ring, by ring, by ring, by ring, by ring, by ring, by ring, by ring⟩

/-- Witness for C1 at the concrete 16-sample frame [1, …, 16]. -/
theorem hadamard_twice_eq_smul_witness :
    ([(1:ℚ), 2, 3, 4, 5, 6, 7, 8, 9, 10, 11, 12, 13, 14, 15, 16] : List ℚ).length = 16 ∧
    hadamard_recursive (hadamard_recursive
        [1, 2, 3, 4, 5, 6, 7, 8, 9, 10, 11, 12, 13, 14, 15, 16])
      = ([1, 2, 3, 4, 5, 6, 7, 8, 9, 10, 11, 12, 13, 14, 15, 16] : List ℚ).map
          (fun x => 16 * x) :=
  ⟨rfl, hadamard_twice_eq_smul.2.2.2.1 _ rfl⟩

/-- C2: `Householder::in_place` adds `s = -2/N · Σ frame` to every element,
and preserves the frame's sum of squares exactly, for N ∈ {1, 2, 4, 8}. -/
theorem householder_in_place_energy :
    (∀ a : ℚ, Householder.in_place [a] = [a + -2 / 1 * a] ∧
      ((Householder.in_place [a]).map (fun x => x ^ 2)).sum
        = (([a] : List ℚ).map (fun x => x ^ 2)).sum) ∧
    (∀ a b : ℚ,
      Householder.in_place [a, b] = [a + -2 / 2 * (a + b), b + -2 / 2 * (a + b)] ∧
      ((Householder.in_place [a, b]).map (fun x => x ^ 2)).sum
        = (([a, b] : List ℚ).map (fun x => x ^ 2)).sum) ∧
    (∀ a b c d : ℚ,
      Householder.in_place [a, b, c, d] =
        [a + -2 / 4 * (a + b + c + d), b + -2 / 4 * (a + b + c + d),
         c + -2 / 4 * (a + b + c + d), d + -2 / 4 * (a + b + c + d)] ∧
      ((Householder.in_place [a, b, c, d]).map (fun x => x ^ 2)).sum
        = (([a, b, c, d] : List ℚ).map (fun x => x ^ 2)).sum) ∧
    (∀ a b c d e f g h : ℚ,
      Householder.in_place [a, b, c, d, e, f, g, h] =
        [a + -2 / 8 * (a + b + c + d + e + f + g + h),
         b + -2 / 8 * (a + b + c + d + e + f + g + h),
         c + -2 / 8 * (a + b + c + d + e + f + g + h),
         d + -2 / 8 * (a + b + c + d + e + f + g + h),
         e + -2 / 8 * (a + b + c + d + e + f + g + h),
         f + -2 / 8 * (a + b + c + d + e + f + g + h),
         g + -2 / 8 * (a + b + c + d + e + f + g + h),
         h + -2 / 8 * (a + b + c + d + e + f + g + h)] ∧
      ((Householder.in_place [a, b, c, d, e, f, g, h]).map (fun x => x ^ 2)).sum
        = (([a, b, c, d, e, f, g, h] : List ℚ).map (fun x => x ^ 2)).sum) := by
  refine ⟨?_, ?_, ?_, ?_⟩
  · intro a
    constructor
    all_goals simp [Householder.in_place]
    all_goals try ring
  · intro a b
    constructor
    all_goals simp [Householder.in_place]
    all_goals try ring
  · intro a b c d
    constructor
    all_goals simp [Householder.in_place]
    all_goals try ring
  · intro a b c d e f g h
    constructor
    all_goals simp [Householder.in_place]
    all_goals try ring

namespace Lib

/-- `Tail<CHANNELS>` from `src/lib.rs`: a single multichannel circular delay
buffer (frames are lists of `CHANNELS` samples) with separate read and write
cursors and a feedback gain. -/
structure Tail where
  feedback_gain : ℚ
  delay_buffer : List (List ℚ)
  buffer_write_index : ℕ
  buffer_read_index : ℕ

/-- `Tail::new` (`src/lib.rs`) with `CHANNELS = C`: a zeroed buffer of
`delay_length_in_samples` frames, write cursor 0, read cursor at the buffer
length. -/
def Tail.new (C delay_length_in_samples : ℕ) (feedback : ℚ) : Tail :=
  { feedback_gain := feedback
    delay_buffer := List.replicate delay_length_in_samples (List.replicate C 0)
    buffer_write_index := 0
    buffer_read_index := delay_length_in_samples }

/-- `Tail::process_block` (`src/lib.rs`): copy one block out of the circular
buffer at the read cursor (wrapping), emit it as the output, multiply by the
feedback gain, add the input block, write the result back at the write
cursor (wrapping), and advance both cursors by the block size.  `none`
models the panic of `assert!(delay_buffer.len() >= block_size)`. -/
def Tail.process_block (t : Tail) (input : List (List ℚ)) :
    Option (List (List ℚ) × Tail) :=
  let block_size := input.length
  let len := t.delay_buffer.length
  if len < block_size then none
  else
    let read_end := t.buffer_read_index + block_size
    let temp :=
      if read_end ≤ len then
        (t.delay_buffer.drop t.buffer_read_index).take block_size
      else
        t.delay_buffer.drop t.buffer_read_index ++ t.delay_buffer.take (read_end % len)
    let output := temp
    let temp := temp.map (fun frame => frame.map (fun s => s * t.feedback_gain))
    let temp := List.zipWith (fun pf i_f => List.zipWith (fun a b => a + b) pf i_f) temp input
    let write_end := t.buffer_write_index + block_size
    let db :=
      if write_end ≤ len then setSlice t.delay_buffer t.buffer_write_index temp
      else
        let we := write_end % len
        setSlice (setSlice t.delay_buffer t.buffer_write_index (temp.take (block_size - we))) 0
          (temp.drop (block_size - we))
    some (output,
      { t with delay_buffer := db
               buffer_read_index := read_end % len
               buffer_write_index := write_end % len })

/-- Drive a `Tail` one sample per block (`CHANNELS = 1`, block size 1), as
the host may: the outputs are collected in order, and any panic poisons the
whole run. -/
def Tail.run (t : Tail) : List ℚ → Option (List ℚ × Tail)
  | [] => some ([], t)
  | x :: xs =>
    match t.process_block [[x]] with
    | none => none
    | some (out, t') =>
      match t'.run xs with
      | none => none
      | some (outs, tf) => some ((out.getD 0 []).getD 0 0 :: outs, tf)

/-- A `CHANNELS = 1` `Tail` whose per-sample buffer contents are `b` and
whose read and write cursors agree at `i`; every state reachable from
`Tail.new` after at least one processed sample has this shape. -/
def Tail.aligned (g : ℚ) (b : List ℚ) (i : ℕ) : Tail :=
  { feedback_gain := g
    delay_buffer := b.map (fun x => [x])
    buffer_write_index := i
    buffer_read_index := i }

theorem Tail.process_block_aligned (g : ℚ) (b : List ℚ) (i : ℕ) (x : ℚ) (hi : i < b.length) :
    (Tail.aligned g b i).process_block [[x]] =
      some ([[b.getD i 0]],
        Tail.aligned g (b.set i (b.getD i 0 * g + x)) ((i + 1) % b.length)) := by
  have hlen : (b.map (fun x => [x])).length = b.length := by simp
  have hi' : i < (b.map (fun x => [x])).length := by simpa using hi
  have hnot : ¬ (b.map (fun x => [x])).length < 1 := by omega
  have hre : i + 1 ≤ (b.map (fun x => [x])).length := by omega
  simp only [Tail.process_block, Tail.aligned, List.length_cons, List.length_nil, hlen]
  rw [if_neg (by omega : ¬ b.length < 0 + 1)]
  rw [if_pos (by omega : i + 0 + 1 ≤ b.length)]
  have htake : List.take (0 + 1) (List.drop i (List.map (fun x => [x]) b)) = [[b.getD i 0]] := by
    rw [show (0 + 1) = 1 from rfl, List.take_one_drop_eq_of_lt_length hi']
    simp [List.getD, List.getElem?_eq_getElem hi]
  rw [htake]
  rw [if_pos (show i + (0 + 1) ≤ b.length by omega)]
  simp only [List.map_cons, List.map_nil, List.zipWith_cons_cons, List.zipWith_nil_right,
    List.zipWith_nil_left, List.zipWith_nil]
  rw [List.map_set, List.set_eq_take_cons_drop _ hi']
  simp [setSlice]



theorem take_set_succ (l : List ℚ) (i : ℕ) (a : ℚ) (h : i < l.length) :
    (l.set i a).take (i+1) = l.take i ++ [a] := by
  rw [List.set_eq_take_cons_drop _ h, List.take_append_eq_append_take]
  simp [List.take_take, List.length_take, Nat.min_eq_left (Nat.le_of_lt h)]

theorem Tail.run_cons_of (t : Tail) (x : ℚ) (xs : List ℚ) (out : List (List ℚ)) (t' : Tail)
    (outs : List ℚ) (tf : Tail)
    (h1 : t.process_block [[x]] = some (out, t'))
    (h2 : t'.run xs = some (outs, tf)) :
    t.run (x :: xs) = some ((out.getD 0 []).getD 0 0 :: outs, tf) := by
  simp [Tail.run, h1, h2]

theorem Tail.run_zeros (g : ℚ) :
    ∀ (j : ℕ) (b : List ℚ) (i : ℕ), i < b.length → i + j ≤ b.length →
    (Tail.aligned g b i).run (List.replicate j 0) =
      some ((b.drop i).take j,
        Tail.aligned g
          (b.take i ++ ((b.drop i).take j).map (fun v => v * g) ++ b.drop (i + j))
          ((i + j) % b.length)) := by
  intro j
  induction j with
  | zero =>
    intro b i hi _
    simp [Tail.run, Nat.mod_eq_of_lt hi]
  | succ j ih =>
    intro b i hi hij
    have hgetd : b.getD i 0 = b.get ⟨i, hi⟩ := by
      simp [List.getD, List.getElem?_eq_getElem hi]
    have hstep := Tail.process_block_aligned g b i 0 hi
    simp only [add_zero] at hstep
    have hlen' : (b.set i (b.getD i 0 * g)).length = b.length := by simp
    rcases Nat.lt_or_ge (i + 1) b.length with hlt | hge
    · have hmod : (i + 1) % b.length = i + 1 := Nat.mod_eq_of_lt hlt
      rw [hmod] at hstep
      have hrest := ih (b.set i (b.getD i 0 * g)) (i + 1) (by omega) (by rw [hlen']; omega)
      rw [List.replicate_succ, Tail.run_cons_of _ _ _ _ _ _ _ hstep hrest]
      have e1 : (b.set i (b.getD i 0 * g)).drop (i + 1) = b.drop (i + 1) :=
        List.drop_set_of_lt _ _ (Nat.lt_succ_self i)
      have e2 : (b.set i (b.getD i 0 * g)).take (i + 1) = b.take i ++ [b.getD i 0 * g] :=
        take_set_succ b i _ hi
      have e3 : (b.set i (b.getD i 0 * g)).drop (i + 1 + j) = b.drop (i + 1 + j) :=
        List.drop_set_of_lt _ _ (by omega)
      have e4 : b.drop i = b.getD i 0 :: b.drop (i + 1) := by
        rw [hgetd]; exact List.drop_eq_getElem_cons hi
      rw [e1, e2, e3, e4]
      simp only [Option.some.injEq, Prod.mk.injEq]
      constructor
      · simp [List.getD_cons_zero]
      · show Tail.aligned g _ _ = Tail.aligned g _ _
        have harr : (i + 1) + j = i + (j + 1) := by omega
        rw [harr, hlen']
        congr 1
        simp [List.take_succ_cons, List.map_cons]
    · have hlen : i + 1 = b.length := by omega
      have hj0 : j = 0 := by omega
      subst hj0
      have hmod0 : (i + 1) % b.length = 0 := by rw [hlen, Nat.mod_self]
      rw [hmod0] at hstep
      have hrest : (Tail.aligned g (b.set i (b.getD i 0 * g)) 0).run (List.replicate 0 0)
          = some ([], Tail.aligned g (b.set i (b.getD i 0 * g)) 0) := by
        simp [Tail.run]
      rw [List.replicate_succ, Tail.run_cons_of _ _ _ _ _ _ _ hstep hrest]
      have e4 : b.drop i = b.getD i 0 :: b.drop (i + 1) := by
        rw [hgetd]; exact List.drop_eq_getElem_cons hi
      have e5 : b.drop (i + 1) = [] := by
        apply List.drop_eq_nil_of_le; omega
      simp only [Option.some.injEq, Prod.mk.injEq]
      constructor
      · rw [e4]
        simp
      · show Tail.aligned g _ _ = Tail.aligned g _ _
        rw [List.set_eq_take_cons_drop _ hi, e4]
        have hfull : i + (0 + 1) = b.length := by omega
        congr 1
        · simp [e5]
        · rw [hfull, Nat.mod_self]

theorem Tail.process_block_new (L : ℕ) (g x : ℚ) (hL : 2 ≤ L) :
    (Tail.new 1 L g).process_block [[x]] =
      some ([[0]], Tail.aligned g ((List.replicate L 0).set 0 x) 1) := by
  obtain ⟨M, rfl⟩ : ∃ M, L = M + 2 := ⟨L - 2, by omega⟩
  have hmod : (M + 2 + 1) % (M + 2) = 1 := by
    rw [show M + 2 + 1 = (M + 2) + 1 from rfl, Nat.add_mod_left]
    exact Nat.mod_eq_of_lt (by omega)
  simp only [Tail.process_block, Tail.new, List.length_cons, List.length_nil,
    List.length_replicate, Nat.zero_add]
  rw [if_neg (by omega : ¬ M + 2 < 0 + 1)]
  rw [if_neg (by omega : ¬ M + 2 + (0 + 1) ≤ M + 2)]
  rw [if_pos (by omega : 0 + (0 + 1) ≤ M + 2)]
  rw [show M + 2 + (0 + 1) = M + 2 + 1 from rfl, hmod]
  simp [Tail.aligned, setSlice, List.replicate_succ]

theorem Tail.run_append (xs : List ℚ) :
    ∀ (t : Tail) (ys : List ℚ) (outs1 : List ℚ) (t1 : Tail), t.run xs = some (outs1, t1) →
    ∀ (outs2 : List ℚ) (t2 : Tail), t1.run ys = some (outs2, t2) →
    t.run (xs ++ ys) = some (outs1 ++ outs2, t2) := by
  induction xs with
  | nil =>
    intro t ys outs1 t1 h1 outs2 t2 h2
    simp only [Tail.run, Option.some.injEq, Prod.mk.injEq] at h1
    obtain ⟨h1a, h1b⟩ := h1
    subst h1a h1b
    simpa using h2
  | cons x xs ih =>
    intro t ys outs1 t1 h1 outs2 t2 h2
    rcases hpb : t.process_block [[x]] with _ | ⟨o, t'⟩
    · rw [Tail.run, hpb] at h1
      exact absurd h1 (by simp)
    · rw [Tail.run, hpb] at h1
      dsimp only at h1
      rcases hrun : t'.run xs with _ | ⟨outs', tf⟩
      · rw [hrun] at h1
        exact absurd h1 (by simp)
      · rw [hrun] at h1
        simp only [Option.some.injEq, Prod.mk.injEq] at h1
        obtain ⟨h1a, h1b⟩ := h1
        subst h1b
        have := ih t' ys outs' tf hrun outs2 t2 h2
        rw [List.cons_append, Tail.run_cons_of _ _ _ _ _ _ _ hpb this, ← h1a]
        simp

theorem Tail.run_zeros_total (g : ℚ) (m : ℕ) : ∀ (b : List ℚ) (i : ℕ), i < b.length →
    ∃ outs b' i', (Tail.aligned g b i).run (List.replicate m 0) = some (outs, Tail.aligned g b' i')
      ∧ b'.length = b.length ∧ i' < b'.length := by
  induction m with
  | zero =>
    intro b i hi
    exact ⟨[], b, i, by simp [Tail.run], rfl, hi⟩
  | succ m ih =>
    intro b i hi
    have hstep := Tail.process_block_aligned g b i 0 hi
    have hlen : (b.set i (b.getD i 0 * g + 0)).length = b.length := by simp
    have hmodlt : (i + 1) % b.length < b.length := Nat.mod_lt _ (by omega)
    obtain ⟨outs, b', i', hrun, hblen, hi'⟩ :=
      ih (b.set i (b.getD i 0 * g + 0)) ((i + 1) % b.length) (by rw [hlen]; exact hmodlt)
    refine ⟨(([[b.getD i 0]] : List (List ℚ)).getD 0 []).getD 0 0 :: outs, b', i', ?_,
      by rw [hblen, hlen], hi'⟩
    rw [List.replicate_succ]
    exact Tail.run_cons_of _ _ _ _ _ _ _ hstep hrun

/-- C3: a `Tail` (`src/lib.rs`) of delay length L with feedback gain 1.0,
fed a unit impulse followed by zeros one sample per block, reproduces the
impulse amplitude exactly at output sample index L, and outputs 0 at every
index strictly between 0 and L. -/
theorem tail_impulse_response (L n : ℕ) (hL : 2 ≤ L) (hLn : L ≤ n) :
    ∃ outs tf, (Tail.new 1 L 1).run (1 :: List.replicate n 0) = some (outs, tf) ∧
      outs.getD L 0 = 1 ∧ ∀ t, 0 < t → t < L → outs.getD t 0 = 0 := by
  set e : List ℚ := (List.replicate L 0).set 0 1 with he
  have helen : e.length = L := by simp [he]
  have hstep := Tail.process_block_new L 1 1 hL
  -- run the next L - 1 zero samples: output stays zero, cursor reaches 0
  have h1 := Tail.run_zeros 1 (L - 1) e 1 (by omega) (by omega)
  have hdrop1 : e.drop 1 = List.replicate (L - 1) 0 := by
    rw [he, List.drop_set_of_lt _ _ (by omega : 0 < 1)]
    rw [List.drop_replicate]
  have htake1 : e.take 1 = [1] := by
    rw [he, take_set_succ _ _ _ (by simp; omega)]
    simp
  have hdropL : e.drop (1 + (L - 1)) = [] := List.drop_eq_nil_of_le (by omega)
  have hmodL : (1 + (L - 1)) % e.length = 0 := by
    rw [helen, show 1 + (L - 1) = L by omega, Nat.mod_self]
  rw [hdrop1, hdropL, hmodL, List.take_replicate, Nat.min_self, List.map_replicate] at h1
  simp only [zero_mul, List.append_nil] at h1
  set B2 : List ℚ := e.take 1 ++ List.replicate (L - 1) 0 with hB2
  have hB2cons : B2 = 1 :: List.replicate (L - 1) 0 := by rw [hB2, htake1]; rfl
  have hB2len : B2.length = L := by rw [hB2cons]; simp; omega
  -- one more zero sample: the impulse comes out
  have hstep2 := Tail.process_block_aligned 1 B2 0 0 (by omega)
  have hB2get : B2.getD 0 0 = 1 := by rw [hB2cons]; rfl
  rw [hB2get] at hstep2
  -- remaining n - L zero samples succeed
  obtain ⟨outs3, b', i', h3, _, _⟩ :=
    Tail.run_zeros_total 1 (n - L) (B2.set 0 (1 * 1 + 0)) ((0 + 1) % B2.length)
      (by simp [hB2len]; exact Nat.mod_lt _ (by omega))
  have hinner := Tail.run_cons_of _ _ _ _ _ _ _ hstep2 h3
  have hmid := Tail.run_append _ _ _ _ _ h1 _ _ hinner
  have houter := Tail.run_cons_of _ _ _ _ _ _ _ hstep hmid
  have hrest : List.replicate n (0:ℚ)
      = List.replicate (L - 1) 0 ++ 0 :: List.replicate (n - L) 0 := by
    rw [show (0:ℚ) :: List.replicate (n - L) 0 = List.replicate ((n - L) + 1) 0 from by
        rw [List.replicate_succ],
      ← List.replicate_add]
    congr 1
    omega
  rw [← hrest] at houter
  refine ⟨_, _, houter, ?_, ?_⟩
  · -- output at index L is 1
    simp only [List.getD_cons_zero]
    have hLsucc : L = (L - 1) + 1 := by omega
    rw [hLsucc, List.getD_cons_succ]
    rw [List.getD_append_right _ _ _ _ (by simp)]
    simp
  · -- outputs strictly between 0 and L are 0
    intro t ht0 htL
    obtain ⟨s, rfl⟩ : ∃ s, t = s + 1 := ⟨t - 1, by omega⟩
    simp only [List.getD_cons_succ]
    rw [List.getD_append _ _ _ _ (by simp; omega)]
    have : ∀ j, (List.replicate (L-1) (0:ℚ)).getD j 0 = 0 := fun j => by
      rcases Nat.lt_or_ge j (L-1) with h | h
      · rw [List.getD_eq_getElem _ _ (by simpa using h)]
        simp
      · rw [List.getD_eq_default _ _ (by simpa using h)]
    exact this s

/-- Witness for C3 at L = 2, n = 2. -/
theorem tail_impulse_response_witness :
    2 ≤ (2:ℕ) ∧ 2 ≤ (2:ℕ) ∧
    ∃ outs tf, (Tail.new 1 2 1).run (1 :: List.replicate 2 0) = some (outs, tf) ∧
      outs.getD 2 0 = 1 ∧ ∀ t, 0 < t → t < 2 → outs.getD t 0 = 0 :=
  ⟨by decide, by decide, tail_impulse_response 2 2 (by decide) (by decide)⟩

end Lib

/-- Modelled from the spec: `StaticSampleDelay` (knyst crate, not under
`src/`), the DelayLine of spec §4.1: a fixed circular buffer with a cursor;
`read` returns the sample the cursor points at (the oldest one, about to be
overwritten, so the delay equals `length`), `write_and_advance` stores at
the cursor and advances it with wraparound.  `length` is the active delay
length (rescalable without reallocation), `buffer` the fixed capacity. -/
structure StaticSampleDelay where
  buffer : List ℚ
  position : ℕ
  length : ℕ
  deriving DecidableEq

namespace StaticSampleDelay

/-- Modelled from the spec: `StaticSampleDelay::new` allocates a zeroed
buffer of the requested length. -/
def new (length_in_samples : ℕ) : StaticSampleDelay :=
  { buffer := List.replicate length_in_samples 0
    position := 0
    length := length_in_samples }

/-- Modelled from the spec: read the sample at the cursor. -/
def read (d : StaticSampleDelay) : ℚ := d.buffer.getD d.position 0

/-- Modelled from the spec: store at the cursor and advance, wrapping at the
active length. -/
def write_and_advance (d : StaticSampleDelay) (x : ℚ) : StaticSampleDelay :=
  { d with buffer := d.buffer.set d.position x
           position := (d.position + 1) % d.length }

/-- Modelled from the spec: block read with wraparound, starting at the
cursor. -/
def read_block (d : StaticSampleDelay) (block_size : ℕ) : List ℚ :=
  (List.range block_size).map (fun j => d.buffer.getD ((d.position + j) % d.length) 0)

/-- Modelled from the spec: block write with wraparound starting at the
cursor, then advance the cursor past the block. -/
def write_block_and_advance (d : StaticSampleDelay) (xs : List ℚ) : StaticSampleDelay :=
  { d with
    buffer := (List.range xs.length).foldl
      (fun buf j => buf.set ((d.position + j) % d.length) (xs.getD j 0)) d.buffer
    position := (d.position + xs.length) % d.length }

/-- Modelled from the spec: `set_delay_length_fraction(f)` rescales the
active delay length to `f` times the buffer capacity, clamped to at least
one sample; the cursor is wrapped back into range. -/
def set_delay_length_fraction (d : StaticSampleDelay) (f : ℚ) : StaticSampleDelay :=
  let len := max 1 (Int.floor (f * (d.buffer.length : ℚ))).toNat
  { d with length := len, position := d.position % len }

/-- Modelled from the spec: `read_at_lin` linearly interpolates between the
two integer samples bracketing a fractional buffer index, wrapping at the
active length. -/
def read_at_lin (d : StaticSampleDelay) (p : ℚ) : ℚ :=
  let i := (Int.floor p).toNat
  let frac := p - Int.floor p
  d.buffer.getD (i % d.length) 0 * (1 - frac) + d.buffer.getD ((i + 1) % d.length) 0 * frac

end StaticSampleDelay

/-- Modelled from the spec: `OnePoleLpf` (knyst crate, not under `src/`),
the one-pole low-pass of spec §4.4: state is the previous output, per sample
`y := y + c · (x − y)` with the coefficient `c` derived from the
instantaneous control value (the control value is used directly as the
coefficient; the sample rate is not otherwise consulted in this model). -/
structure OnePoleLpf where
  last_output : ℚ

namespace OnePoleLpf

/-- Modelled from the spec: a fresh filter with zero state. -/
def new : OnePoleLpf := { last_output := 0 }

/-- Modelled from the spec: filter one block, the coefficient recomputed
per sample from the control block. -/
def process (lpf : OnePoleLpf) (_sample_rate : ℚ) (input cutoff : List ℚ) :
    List ℚ × OnePoleLpf :=
  let r := (input.zip cutoff).foldl
    (fun (acc : List ℚ × ℚ) xc =>
      let y := acc.2 + xc.2 * (xc.1 - acc.2)
      (acc.1 ++ [y], y))
    ([], lpf.last_output)
  (r.1, { last_output := r.2 })

end OnePoleLpf

namespace Luff

/-- `Diffuser<CHANNELS>` from `src/luffverb.rs`: one delay line and one
polarity sign per channel; frames are mixed with `hadamard_recursive`. -/
structure Diffuser where
  delays : List StaticSampleDelay
  flip_polarity : List ℚ
  deriving DecidableEq

/-- `Diffuser::new` (`src/luffverb.rs`) with `CHANNELS = C`: the shuffled
polarity vector and the random delay-length draws are passed in explicitly;
channel i draws from `gen_range(max/C*i + 1 .. max/C*(i+1))` and `none`
models the panic on an empty range (or an out-of-range draw, which the real
rng cannot produce). -/
def Diffuser.new? (C max_delay_length_in_samples : ℕ) (flip : List ℚ) (draws : List ℕ) :
    Option Diffuser :=
  if draws.length = C ∧ ∀ i ∈ List.range C,
      max_delay_length_in_samples / C * i + 1 ≤ draws.getD i 0 ∧
      draws.getD i 0 < max_delay_length_in_samples / C * (i + 1) then
    some { delays := draws.map StaticSampleDelay.new, flip_polarity := flip }
  else none

/-- One frame of `Diffuser::process_block` (`src/luffverb.rs`): read every
delay (sign-flipped), write the input frame into the delays, and mix the
read vector with `hadamard_recursive`. -/
def Diffuser.step (d : Diffuser) (frame : List ℚ) : List ℚ × Diffuser :=
  let sig := List.zipWith (fun dl pol => dl.read * pol) d.delays d.flip_polarity
  let delays := List.zipWith (fun dl x => dl.write_and_advance x) d.delays frame
  (hadamard_recursive sig, { d with delays := delays })

/-- `Diffuser::process_block` (`src/luffverb.rs`): the per-frame step over a
channel-major block (the transposes convert between channel-major storage
and the per-frame loop of the source). -/
def Diffuser.process_block (d : Diffuser) (input : List (List ℚ)) :
    List (List ℚ) × Diffuser :=
  let r := input.transpose.foldl
    (fun (acc : List (List ℚ) × Diffuser) frame =>
      let (out, d') := acc.2.step frame
      (acc.1 ++ [out], d'))
    ([], d)
  (r.1.transpose, r.2)

/-- `Tail<CHANNELS>` from `src/luffverb.rs`: per-channel delay lines and
one-pole low-pass filters plus a feedback gain; frames are mixed with the
Householder transform. -/
structure Tail where
  feedback_gain : ℚ
  delays : List StaticSampleDelay
  lowpasses : List OnePoleLpf

/-- `Tail::new` (`src/luffverb.rs`) with `CHANNELS = C`: each channel draws
its delay length from `gen_range(len/10 .. len)`; the draws are passed in
explicitly and `none` models the panic on an empty range. -/
def Tail.new? (C delay_length_in_samples : ℕ) (feedback : ℚ) (draws : List ℕ) :
    Option Tail :=
  if draws.length = C ∧ ∀ i ∈ List.range C,
      delay_length_in_samples / 10 ≤ draws.getD i 0 ∧
      draws.getD i 0 < delay_length_in_samples then
    some { feedback_gain := feedback
           delays := draws.map StaticSampleDelay.new
           lowpasses := (List.range C).map (fun _ => OnePoleLpf.new) }
  else none

/-- `Tail::process_block` (`src/luffverb.rs`): read one block from every
delay (that is the output), mix every frame with the Householder transform,
apply the feedback gain, low-pass each channel with the damping control,
add the input block, and write the result back into the delays. -/
def Tail.process_block (t : Tail) (input : List (List ℚ)) (damping : List ℚ)
    (sample_rate : ℚ) : List (List ℚ) × Tail :=
  let block_size := (input.getD 0 []).length
  let temp := t.delays.map (fun d => d.read_block block_size)
  let output := temp
  let temp := (temp.transpose.map Householder.in_place).transpose
  let scaled := temp.map (fun channel => channel.map (fun s => s * t.feedback_gain))
  let filtered := List.zipWith
    (fun (lpf : OnePoleLpf) channel => lpf.process sample_rate channel damping)
    t.lowpasses scaled
  let temp1 := List.zipWith (fun pc ic => List.zipWith (fun a b => a + b) pc ic)
    (filtered.map Prod.fst) input
  let delays := List.zipWith
    (fun (d : StaticSampleDelay) channel => d.write_block_and_advance channel)
    t.delays temp1
  (output, { t with delays := delays, lowpasses := filtered.map Prod.snd })

/-- `CHANNELS` from `src/luffverb.rs`. -/
def CHANNELS : ℕ := 8

/-- `DIFFUSERS` from `src/luffverb.rs`. -/
def DIFFUSERS : ℕ := 4

/-- `LuffVerb` from `src/luffverb.rs` (the two scratch block buffers of the
source are allocation details and carry no state across blocks). -/
structure LuffVerb where
  diffusers : List Diffuser
  tail : Tail
  input_lpf : OnePoleLpf

/-- The pipeline of `LuffVerb::process` (`src/luffverb.rs`) up to and
including the diffuser cascade: low-pass the input, broadcast it to all
channels, and run it through every diffuser in order. -/
def LuffVerb.diffused (lv : LuffVerb) (input lowpass : List ℚ) (sample_rate : ℚ) :
    List (List ℚ) × List Diffuser × OnePoleLpf :=
  let r0 := lv.input_lpf.process sample_rate input lowpass
  let in_buf := (List.range CHANNELS).map (fun _ => r0.1)
  let r := lv.diffusers.foldl
    (fun (acc : List (List ℚ) × List Diffuser) diffuser =>
      let (out, d') := diffuser.process_block acc.1
      (out, acc.2 ++ [d']))
    (in_buf, [])
  (r.1, r.2, r0.2)

/-- `LuffVerb::process` (`src/luffverb.rs`): after the diffuser cascade the
output is first filled with the channel sums of the diffused block scaled by
the fixed early-reflections amount 0.5; then the Tail runs on the diffused
block and its channel sums are added on top, after which the running value
is multiplied by the compensation amplitude `1 / (CHANNELS · DIFFUSERS)`. -/
def LuffVerb.process (lv : LuffVerb) (input lowpass damping : List ℚ)
    (sample_rate : ℚ) : List ℚ × LuffVerb :=
  let d := lv.diffused input lowpass sample_rate
  let early_reflections_amount : ℚ := 0.5
  let output0 := (List.range input.length).map (fun f =>
    (0 + (d.1.map (fun channel => channel.getD f 0)).sum) * early_reflections_amount)
  let r := lv.tail.process_block d.1 damping sample_rate
  let compensation_amp : ℚ := 1 / ((CHANNELS : ℚ) * (DIFFUSERS : ℚ))
  let output := (List.range input.length).map (fun f =>
    (output0.getD f 0 + (r.1.map (fun channel => channel.getD f 0)).sum) * compensation_amp)
  (output, { diffusers := d.2.1, tail := r.2, input_lpf := d.2.2 })

/-- The final mix as claim C5 states it: the compensation amplitude scales
only the Tail channel sum, which is accumulated onto the untouched
early-reflections term. -/
def LuffVerb.claimed_output (lv : LuffVerb) (input lowpass damping : List ℚ)
    (sample_rate : ℚ) : List ℚ :=
  let d := lv.diffused input lowpass sample_rate
  let early_reflections_amount : ℚ := 0.5
  let output0 := (List.range input.length).map (fun f =>
    (0 + (d.1.map (fun channel => channel.getD f 0)).sum) * early_reflections_amount)
  let r := lv.tail.process_block d.1 damping sample_rate
  let compensation_amp : ℚ := 1 / ((CHANNELS : ℚ) * (DIFFUSERS : ℚ))
  (List.range input.length).map (fun f =>
    output0.getD f 0 + compensation_amp * (r.1.map (fun channel => channel.getD f 0)).sum)

end Luff

/-- `((List.range n).map fn).getD f 0` is just `fn f` in range. -/
theorem getD_map_range (n : ℕ) (fn : ℕ → ℚ) (f : ℕ) (hf : f < n) :
    ((List.range n).map fn).getD f 0 = fn f := by
  rw [List.getD_eq_getElem _ _ (by simpa using hf)]
  simp

/-- A concrete `Diffuser` state with one-sample delay lines holding
`prefill` and positive polarity everywhere. -/
def cexDiffuser (prefill : List ℚ) : Luff.Diffuser :=
  { delays := prefill.map (fun v => { buffer := [v], position := 0, length := 1 })
    flip_polarity := List.replicate 8 1 }

/-- A concrete `LuffVerb` state used to refute claim C5: the last diffuser
holds an impulse in its delay lines and the Tail is silent, so the final
output is exactly the early-reflections term scaled by the compensation
amplitude. -/
def cexLuffVerb : Luff.LuffVerb :=
  { diffusers := [cexDiffuser (List.replicate 8 0), cexDiffuser (List.replicate 8 0),
      cexDiffuser (List.replicate 8 0), cexDiffuser [1, 0, 0, 0, 0, 0, 0, 0]]
    tail := { feedback_gain := 0.7
              delays := (List.range 8).map (fun _ => StaticSampleDelay.new 1)
              lowpasses := (List.range 8).map (fun _ => OnePoleLpf.new) }
    input_lpf := OnePoleLpf.new }

/-- C5 fails on the code: at a concrete state with a nonzero early-reflections
term and a silent Tail, the process output is the early term times the
compensation amplitude (1/8 here), not the early term itself (4 here) as the
claim's formula demands. -/
theorem luffverb_mix_counterexample :
    (cexLuffVerb.process [0] [0] [0] 44100).1
      ≠ cexLuffVerb.claimed_output [0] [0] [0] 44100 := by
  with_unfolding_all decide

/-- C5 (amended): in every `LuffVerb::process` call, the final output at
frame f equals the sum of the early-reflections term (diffused channel sums
scaled by 0.5) and the Tail channel sums, with the whole sum scaled by the
compensation amplitude `1 / (CHANNELS · DIFFUSERS)`: the compensation
amplitude multiplies the early-reflections term too, not only the Tail sum. -/
theorem luffverb_mix_formula (lv : Luff.LuffVerb) (input lowpass damping : List ℚ)
    (sample_rate : ℚ) :
    (lv.process input lowpass damping sample_rate).1
      = (List.range input.length).map (fun f =>
          (((lv.diffused input lowpass sample_rate).1.map
              (fun channel => channel.getD f 0)).sum * (0.5 : ℚ)
            + ((lv.tail.process_block (lv.diffused input lowpass sample_rate).1 damping
                sample_rate).1.map (fun channel => channel.getD f 0)).sum)
          * (1 / ((Luff.CHANNELS : ℚ) * (Luff.DIFFUSERS : ℚ)))) := by
  unfold Luff.LuffVerb.process
  apply List.map_congr_left
  intro f hf
  have hf' : f < input.length := by simpa using hf
  rw [getD_map_range _ _ _ hf']
  ring

/-- Witness for the amended C5 formula at the concrete state of the
counterexample. -/
theorem luffverb_mix_formula_witness :
    (cexLuffVerb.process [0] [0] [0] 44100).1
      = (List.range ([0] : List ℚ).length).map (fun f =>
          (((cexLuffVerb.diffused [0] [0] 44100).1.map
              (fun channel => channel.getD f 0)).sum * (0.5 : ℚ)
            + ((cexLuffVerb.tail.process_block (cexLuffVerb.diffused [0] [0] 44100).1 [0]
                44100).1.map (fun channel => channel.getD f 0)).sum)
          * (1 / ((Luff.CHANNELS : ℚ) * (Luff.DIFFUSERS : ℚ)))) :=
  luffverb_mix_formula cexLuffVerb [0] [0] [0] 44100

/-- C8 fails on the code: `Tail::new` (`src/luffverb.rs`) accepts a feedback
gain of 2 (≥ 1) at a valid delay length: construction succeeds and the gain
is stored unclamped, instead of failing fast. -/
theorem construction_feedback_accepted :
    (Luff.Tail.new? 8 100 2 [50, 50, 50, 50, 50, 50, 50, 50]).map Luff.Tail.feedback_gain
      = some 2 := by
  with_unfolding_all decide

/-- C8 (amended): construction-time validation is partial: a non-power-of-two
channel count panics in `hadamard` (`src/lib.rs`, hence in the lib.rs
Diffuser); a zero delay length panics in the rng-based constructors
(`Tail::new` and `Diffuser::new` of `src/luffverb.rs`, via an empty
`gen_range` range) but is accepted by `Tail::new` of `src/lib.rs`, whose
failure is deferred to the `assert!` in `process_block`; and a feedback gain
≥ 1 is accepted unchecked and stored unclamped by both `Tail` constructors
(`src/luffverb.rs` and `src/lib.rs`). -/
theorem construction_validation :
    (∀ N : ℕ, N &&& (N - 1) ≠ 0 → hadamard? N = none) ∧
    (∀ (C : ℕ) (g : ℚ) (draws : List ℕ), 0 < C → Luff.Tail.new? C 0 g draws = none) ∧
    (∀ (C : ℕ) (flip : List ℚ) (draws : List ℕ), 0 < C →
      Luff.Diffuser.new? C 0 flip draws = none) ∧
    (∀ g : ℚ, (Lib.Tail.new 1 0 g).delay_buffer = [] ∧
      (Lib.Tail.new 1 0 g).process_block [[0]] = none) ∧
    (∀ g : ℚ, (Luff.Tail.new? 8 100 g [50, 50, 50, 50, 50, 50, 50, 50]).map
        Luff.Tail.feedback_gain = some g) ∧
    (∀ (C L : ℕ) (g : ℚ), (Lib.Tail.new C L g).feedback_gain = g) := by
  refine ⟨?_, ?_, ?_, ?_, ?_, ?_⟩
  · intro N hN
    simp [hadamard?, hN]
  · intro C g draws hC
    rw [Luff.Tail.new?, if_neg]
    rintro ⟨-, h⟩
    have := h 0 (List.mem_range.2 hC)
    omega
  · intro C flip draws hC
    rw [Luff.Diffuser.new?, if_neg]
    rintro ⟨-, h⟩
    have := h 0 (List.mem_range.2 hC)
    rw [Nat.zero_div] at this
    omega
  · intro g
    constructor
    · rfl
    · rfl
  · intro g
    rw [Luff.Tail.new?, if_pos]
    · rfl
    · refine ⟨rfl, ?_⟩
      decide
  · intro C L g
    rfl

/-- Witness for the amended C8 theorem at N = 3, C = 8, g = 2. -/
theorem construction_validation_witness :
    ((3:ℕ) &&& (3 - 1) ≠ 0 ∧ hadamard? 3 = none) ∧
    (0 < 8 ∧ Luff.Tail.new? 8 0 (7/10) [1] = none) ∧
    (0 < 8 ∧ Luff.Diffuser.new? 8 0 (List.replicate 8 1) [1] = none) ∧
    ((Lib.Tail.new 1 0 2).delay_buffer = [] ∧
      (Lib.Tail.new 1 0 2).process_block [[0]] = none) ∧
    ((Luff.Tail.new? 8 100 2 [50, 50, 50, 50, 50, 50, 50, 50]).map
      Luff.Tail.feedback_gain = some 2) ∧
    ((Lib.Tail.new 1 33 2).feedback_gain = 2) :=
  ⟨⟨by decide, construction_validation.1 3 (by decide)⟩,
   ⟨by decide, construction_validation.2.1 8 (7/10) [1] (by decide)⟩,
   ⟨by decide, construction_validation.2.2.1 8 (List.replicate 8 1) [1] (by decide)⟩,
   construction_validation.2.2.2.1 2,
   construction_validation.2.2.2.2.1 2,
   construction_validation.2.2.2.2.2 1 33 2⟩

/-- C9 fails on the code: a `Diffuser` over 8 channels with delay range 23
can only draw length 15 for channel 7 (the code's stratum is
`[⌊23/8⌋·7 + 1, ⌊23/8⌋·8) = [15, 16)`), but the claimed stratum lower bound
`range·i/N = 23·7/8 = 20.125` exceeds 15. -/
theorem diffuser_strata_counterexample :
    (Luff.Diffuser.new? 8 23 (List.replicate 8 1) [1, 3, 5, 7, 9, 11, 13, 15]).map
        (fun d => d.delays.map StaticSampleDelay.length) = some [1, 3, 5, 7, 9, 11, 13, 15]
    ∧ ¬ ((23 * 7 : ℚ) / 8 ≤ ((15 : ℕ) : ℚ)) := by
  constructor
  · with_unfolding_all decide
  · norm_num

/-- C9 (amended): the delay length of channel i of a `Diffuser` over C
channels with range `maxd` lies in the integer-division stratum
`[⌊maxd/C⌋·i + 1, ⌊maxd/C⌋·(i+1))`; these strata are pairwise disjoint, and
whenever C divides `maxd` they sit inside the claimed strata
`[maxd·i/C, maxd·(i+1)/C)`, so the claim's bound holds in the divisible
case (and can fail otherwise, as the counterexample at range 23 shows). -/
theorem diffuser_strata (C maxd : ℕ) (flip : List ℚ) (draws : List ℕ) (D : Luff.Diffuser)
    (h : Luff.Diffuser.new? C maxd flip draws = some D) :
    (∀ i, i < C →
      maxd / C * i + 1 ≤ (D.delays.map StaticSampleDelay.length).getD i 0 ∧
      (D.delays.map StaticSampleDelay.length).getD i 0 < maxd / C * (i + 1)) ∧
    (∀ i j, i < j → j < C → maxd / C * (i + 1) ≤ maxd / C * j + 1) ∧
    (C ∣ maxd → ∀ i, i < C →
      maxd * i ≤ (D.delays.map StaticSampleDelay.length).getD i 0 * C ∧
      (D.delays.map StaticSampleDelay.length).getD i 0 * C < maxd * (i + 1)) := by
  rw [Luff.Diffuser.new?] at h
  split at h
  case isFalse => exact absurd h (by simp)
  case isTrue hc =>
    obtain ⟨hlen, hranges⟩ := hc
    have hD : D = { delays := draws.map StaticSampleDelay.new, flip_polarity := flip } :=
      (Option.some.inj h).symm
    have hmap : D.delays.map StaticSampleDelay.length = draws := by
      rw [hD]
      simp only [List.map_map]
      have hfun : (StaticSampleDelay.length ∘ StaticSampleDelay.new) = id := funext fun t => rfl
      rw [hfun, List.map_id]
    rw [hmap]
    have hbounds : ∀ i, i < C →
        maxd / C * i + 1 ≤ draws.getD i 0 ∧ draws.getD i 0 < maxd / C * (i + 1) :=
      fun i hi => hranges i (List.mem_range.2 hi)
    refine ⟨hbounds, ?_, ?_⟩
    · intro i j hij hj
      have : i + 1 ≤ j := hij
      calc maxd / C * (i + 1) ≤ maxd / C * j := Nat.mul_le_mul_left _ this
        _ ≤ maxd / C * j + 1 := Nat.le_succ _
    · rintro ⟨q, hq⟩ i hi
      have hC0 : 0 < C := by omega
      have hdiv : maxd / C = q := by
        rw [hq]
        exact Nat.mul_div_cancel_left q hC0
      obtain ⟨h1, h2⟩ := hbounds i hi
      rw [hdiv] at h1 h2
      constructor
      · calc maxd * i = q * i * C := by rw [hq]; ring
          _ ≤ (q * i + 1) * C := Nat.mul_le_mul_right _ (Nat.le_succ _)
          _ ≤ draws.getD i 0 * C := Nat.mul_le_mul_right _ h1
      · calc draws.getD i 0 * C < (draws.getD i 0 + 1) * C :=
              Nat.mul_lt_mul_of_lt_of_le (Nat.lt_succ_self _) (Nat.le_refl C) hC0
          _ ≤ q * (i + 1) * C := Nat.mul_le_mul_right _ h2
          _ = maxd * (i + 1) := by rw [hq]; ring

/-- Witness for the amended C9 theorem at C = 8, maxd = 16 (divisible case)
with the only possible draws [1, 3, 5, 7, 9, 11, 13, 15] for ⌊16/8⌋ = 2. -/
theorem diffuser_strata_witness :
    Luff.Diffuser.new? 8 16 (List.replicate 8 1) [1, 3, 5, 7, 9, 11, 13, 15]
        = some { delays := ([1, 3, 5, 7, 9, 11, 13, 15] : List ℕ).map StaticSampleDelay.new,
                 flip_polarity := List.replicate 8 1 } ∧
    (∀ i, i < 8 →
      16 / 8 * i + 1 ≤ ((([1, 3, 5, 7, 9, 11, 13, 15] : List ℕ).map
          StaticSampleDelay.new).map StaticSampleDelay.length).getD i 0 ∧
      ((([1, 3, 5, 7, 9, 11, 13, 15] : List ℕ).map
          StaticSampleDelay.new).map StaticSampleDelay.length).getD i 0 < 16 / 8 * (i + 1)) := by
  have hnew : Luff.Diffuser.new? 8 16 (List.replicate 8 1) [1, 3, 5, 7, 9, 11, 13, 15]
      = some { delays := ([1, 3, 5, 7, 9, 11, 13, 15] : List ℕ).map StaticSampleDelay.new,
               flip_polarity := List.replicate 8 1 } := by
    with_unfolding_all decide
  exact ⟨hnew, (diffuser_strata 8 16 (List.replicate 8 1) _ _ hnew).1⟩

/-- The 4-tap difference mix of `Galactic::process` (`src/galactic.rs`):
`out[i] = b[i] − (b[(1+i)%4] + b[(2+i)%4] + b[(3+i)%4])`. -/
def diffmix (b : List ℚ) : List ℚ :=
  (List.range 4).map (fun i =>
    b.getD i 0 - (b.getD ((1 + i) % 4) 0 + b.getD ((2 + i) % 4) 0 + b.getD ((3 + i) % 4) 0))

/-- The exponent part of `frexp` (`src/galactic.rs`): 0 for s = 0, else
`⌊log₂ |s|⌋ + 1`; the Rust cast of a negative float exponent to `u32`
saturates at 0, modelled by `Int.toNat`. -/
def frexp_exp (s : ℚ) : ℕ :=
  if s = 0 then 0 else (Int.log 2 |s| + 1).toNat

/-- The 32-bit xorshift update applied to `fpdL`/`fpdR` once per sample
(`src/galactic.rs`): `x ^= x << 13; x ^= x >> 17; x ^= x << 5` on `u32`. -/
def xorshift32 (fpd : ℕ) : ℕ :=
  let a := (fpd ^^^ (fpd <<< 13)) % 4294967296
  let b := a ^^^ (a >>> 17)
  (b ^^^ (b <<< 5)) % 4294967296

/-- The exponent-scaled dither added to each output sample
(`src/galactic.rs`): `(fpd' − 0x7fffffff) · 5.5e-36 · (2_u64.pow(exp + 62))`.
The `u64` power wraps modulo 2^64 (release semantics; a debug build would
panic on the overflow), so the power — and with it the whole dither term —
collapses to 0 as soon as `exp ≥ 2`, i.e. for samples of magnitude ≥ 2. -/
def dither (fpd' : ℕ) (exp : ℕ) : ℚ :=
  ((fpd' : ℚ) - 2147483647) * 5.5e-36 * (((2 ^ (exp + 62) % 2 ^ 64 : ℕ) : ℚ))

/-- `Galactic` from `src/galactic.rs`: 12 delay lines per stereo channel
(three cascaded 4-line blocks), cross-channel feedback, two modulated
detune pre-delays, per-channel one-pole states `iirA`/`iirB`, two 32-bit
dither generators, and the modulation phase `vibM`. -/
structure Galactic where
  delays_left : List StaticSampleDelay
  delays_right : List StaticSampleDelay
  feedback : List (List ℚ)
  detune_delay_left : StaticSampleDelay
  detune_delay_right : StaticSampleDelay
  lowpass_pre : List ℚ
  lowpass_post : List ℚ
  fpdL : ℕ
  fpdR : ℕ
  oldfpd : ℚ
  vibM : ℚ
  iirAL : ℚ
  iirAR : ℚ
  iirBL : ℚ
  iirBR : ℚ
  deriving DecidableEq

namespace Galactic

/-- The per-block coefficient derivation at the top of `Galactic::process`
(`src/galactic.rs`): `(regen, attenuate, lowpass, drift, size, wet)` from
the control values at index 0.  `sqrt_overallscale` stands for the library
call `overallscale.sqrt()` with `overallscale = sample_rate / 44100`. -/
def derived (replace0 brightness0 detune0 size0 mix0 sqrt_overallscale : ℚ) :
    ℚ × ℚ × ℚ × ℚ × ℚ × ℚ :=
  let regen := 0.0625 + (1 - replace0) * 0.0625
  let attenuate := (1 - regen / 0.125) * 1.333
  let lowpass := (1.00001 - (1 - brightness0)) ^ 2 / sqrt_overallscale
  let drift := detune0 ^ 3 * 0.001
  let size := size0 * 0.9 + 0.1
  let wet := 1 - (1 - mix0) ^ 3
  (regen, attenuate, lowpass, drift, size, wet)

/-- One sample of the `Galactic::process` loop (`src/galactic.rs`):
denormal substitution, `vibM` phase update, modulated detune pre-delay,
stage-A low-pass, the three cascaded 4-line difference-mix blocks with
cross-channel feedback, stage-B low-pass, wet/dry cross-fade (skipped
when `wet = 1`), and the exponent-scaled output dither.  `sinf` stands for
the `f64::sin` library function. -/
def tick (g : Galactic) (sinf : ℚ → ℚ)
    (regen attenuate lowpass drift wet : ℚ) (in_l in_r : ℚ) :
    (ℚ × ℚ) × Galactic :=
  let input_sample_l := if |in_l| < 1.18e-23 then (g.fpdL : ℚ) * 1.18e-17 else in_l
  let input_sample_r := if |in_r| < 1.18e-23 then (g.fpdR : ℚ) * 1.18e-17 else in_r
  let dry_sample_l := input_sample_l
  let dry_sample_r := input_sample_r
  let vibM0 := g.vibM + g.oldfpd * drift
  let vib : ℚ × ℚ :=
    if vibM0 > 3.141592653589793238 * 2.0 then
      (0, 0.4294967295 + (g.fpdL : ℚ) * 0.0000000000618)
    else (vibM0, g.oldfpd)
  let vibM := vib.1
  let oldfpd := vib.2
  let detune_delay_left := g.detune_delay_left.write_and_advance (input_sample_l * attenuate)
  let detune_delay_right := g.detune_delay_right.write_and_advance (input_sample_r * attenuate)
  let offsetML := (sinf vibM + 1) * 127
  let offsetMR := (sinf (vibM + 3.141592653589793238 / 2.0) + 1) * 127
  let workingML := (detune_delay_left.position : ℚ) + offsetML
  let workingMR := (detune_delay_right.position : ℚ) + offsetMR
  let input_sample_l := detune_delay_left.read_at_lin workingML
  let input_sample_r := detune_delay_right.read_at_lin workingMR
  let iirAL := g.iirAL * (1 - lowpass) + input_sample_l * lowpass
  let input_sample_l := iirAL
  let iirAR := g.iirAR * (1 - lowpass) + input_sample_r * lowpass
  let input_sample_r := iirAR
  let dl0 := List.zipWith (fun (d : StaticSampleDelay) fb =>
      d.write_and_advance (fb * regen + input_sample_l))
    (g.delays_left.take 4) (g.feedback.getD 1 [])
  let dr0 := List.zipWith (fun (d : StaticSampleDelay) fb =>
      d.write_and_advance (fb * regen + input_sample_r))
    (g.delays_right.take 4) (g.feedback.getD 0 [])
  let block_0_l := dl0.map StaticSampleDelay.read
  let block_0_r := dr0.map StaticSampleDelay.read
  let dl1 := List.zipWith (fun (d : StaticSampleDelay) x => d.write_and_advance x)
    ((g.delays_left.drop 4).take 4) (diffmix block_0_l)
  let dr1 := List.zipWith (fun (d : StaticSampleDelay) x => d.write_and_advance x)
    ((g.delays_right.drop 4).take 4) (diffmix block_0_r)
  let block_1_l := dl1.map StaticSampleDelay.read
  let block_1_r := dr1.map StaticSampleDelay.read
  let dl2 := List.zipWith (fun (d : StaticSampleDelay) x => d.write_and_advance x)
    ((g.delays_left.drop 8).take 4) (diffmix block_1_l)
  let dr2 := List.zipWith (fun (d : StaticSampleDelay) x => d.write_and_advance x)
    ((g.delays_right.drop 8).take 4) (diffmix block_1_r)
  let block_2_l := dl2.map StaticSampleDelay.read
  let block_2_r := dr2.map StaticSampleDelay.read
  let feedback := [diffmix block_2_l, diffmix block_2_r]
  let input_sample_l := block_2_l.sum * 0.125
  let input_sample_r := block_2_r.sum * 0.125
  let iirBL := g.iirBL * (1 - lowpass) + input_sample_l * lowpass
  let input_sample_l := iirBL
  let iirBR := g.iirBR * (1 - lowpass) + input_sample_r * lowpass
  let input_sample_r := iirBR
  let faded : ℚ × ℚ :=
    if wet < 1 then
      (input_sample_l * wet + dry_sample_l * (1 - wet),
       input_sample_r * wet + dry_sample_r * (1 - wet))
    else (input_sample_l, input_sample_r)
  let fpdL := xorshift32 g.fpdL
  let out_l := faded.1 + dither fpdL (frexp_exp faded.1)
  let fpdR := xorshift32 g.fpdR
  let out_r := faded.2 + dither fpdR (frexp_exp faded.2)
  ((out_l, out_r),
    { delays_left := dl0 ++ dl1 ++ dl2
      delays_right := dr0 ++ dr1 ++ dr2
      feedback := feedback
      detune_delay_left := detune_delay_left
      detune_delay_right := detune_delay_right
      lowpass_pre := g.lowpass_pre
      lowpass_post := g.lowpass_post
      fpdL := fpdL
      fpdR := fpdR
      oldfpd := oldfpd
      vibM := vibM
      iirAL := iirAL
      iirAR := iirAR
      iirBL := iirBL
      iirBR := iirBR })

/-- `Galactic::process` (`src/galactic.rs`): derive the six per-block
coefficients from index 0 of each control sequence, rescale the 24 block
delay lines by the size fraction, then run the per-sample loop over the
zipped input channels.  `sinf` and `sqrt_overallscale` stand for the
`f64::sin` and `f64::sqrt` library calls. -/
def process (g : Galactic) (sinf : ℚ → ℚ)
    (left right size replace brightness detune mix : List ℚ)
    (_sample_rate sqrt_overallscale : ℚ) : (List ℚ × List ℚ) × Galactic :=
  let c := derived (replace.getD 0 0) (brightness.getD 0 0) (detune.getD 0 0)
    (size.getD 0 0) (mix.getD 0 0) sqrt_overallscale
  let regen := c.1
  let attenuate := c.2.1
  let lowpass := c.2.2.1
  let drift := c.2.2.2.1
  let size_fraction := c.2.2.2.2.1
  let wet := c.2.2.2.2.2
  let g := { g with
    delays_left := g.delays_left.map (fun d => d.set_delay_length_fraction size_fraction)
    delays_right := g.delays_right.map (fun d => d.set_delay_length_fraction size_fraction) }
  (left.zip right).foldl
    (fun (acc : (List ℚ × List ℚ) × Galactic) lr =>
      let r := acc.2.tick sinf regen attenuate lowpass drift wet lr.1 lr.2
      ((acc.1.1 ++ [r.1.1], acc.1.2 ++ [r.1.2]), r.2))
    (([], []), g)

end Galactic

/-- Modelled from the spec: the coefficient derivation of §4.6 step 1,
written from the spec's own formulas, to be compared with the code's
`Galactic.derived`. -/
def spec_derived (regen_ctl brightness detune size mix sqrt_overall_scale : ℚ) :
    ℚ × ℚ × ℚ × ℚ × ℚ × ℚ :=
  let regen_gain := 0.0625 + (1 - regen_ctl) * 0.0625
  let attenuate := (1 - regen_gain / 0.125) * 1.333
  let lowpass_coeff := (1.00001 - (1 - brightness)) ^ 2 / sqrt_overall_scale
  let drift := detune ^ 3 * 0.001
  let size_fraction := size * 0.9 + 0.1
  let wet := 1 - (1 - mix) ^ 3
  (regen_gain, attenuate, lowpass_coeff, drift, size_fraction, wet)

/-- C6: the per-block coefficients `Galactic::process` derives are exactly
the spec's formulas: regen_gain = 0.0625 + (1 − regen)·0.0625, attenuate =
(1 − regen_gain/0.125)·1.333, lowpass_coeff = (1.00001 − (1 − brightness))²
/ sqrt(overall_scale), drift = detune³·0.001, size_fraction = size·0.9 + 0.1,
wet = 1 − (1 − mix)³. -/
theorem galactic_derived_matches_spec
    (replace0 brightness0 detune0 size0 mix0 sqos : ℚ) :
    Galactic.derived replace0 brightness0 detune0 size0 mix0 sqos
      = spec_derived replace0 brightness0 detune0 size0 mix0 sqos := rfl

/-- With `wet = 0` the cross-fade of `Galactic::tick` returns exactly the
(denormal-substituted) dry samples, so each output is dry plus the
exponent-scaled dither. -/
theorem Galactic.tick_wet_zero (g : Galactic) (sinf : ℚ → ℚ)
    (regen attenuate lowpass drift in_l in_r : ℚ) :
    (g.tick sinf regen attenuate lowpass drift 0 in_l in_r).1.1
        = (if |in_l| < 1.18e-23 then (g.fpdL : ℚ) * 1.18e-17 else in_l)
          + dither (xorshift32 g.fpdL)
              (frexp_exp (if |in_l| < 1.18e-23 then (g.fpdL : ℚ) * 1.18e-17 else in_l)) ∧
    (g.tick sinf regen attenuate lowpass drift 0 in_l in_r).1.2
        = (if |in_r| < 1.18e-23 then (g.fpdR : ℚ) * 1.18e-17 else in_r)
          + dither (xorshift32 g.fpdR)
              (frexp_exp (if |in_r| < 1.18e-23 then (g.fpdR : ℚ) * 1.18e-17 else in_r)) := by
  have hv : ∀ x y : ℚ, x * 0 + y * (1 - 0) = y := by
    intro x y
    ring
  constructor
  · simp only [Galactic.tick]
    rw [if_pos (by norm_num : (0:ℚ) < 1)]
    dsimp only
    rw [hv]
  · simp only [Galactic.tick]
    rw [if_pos (by norm_num : (0:ℚ) < 1)]
    dsimp only
    rw [hv]

/-- With `wet = 1` the cross-fade of `Galactic::tick` is skipped entirely:
each output is the post-update stage-B low-pass state (the pure wet path)
plus the exponent-scaled dither, with no dry term. -/
theorem Galactic.tick_wet_one (g : Galactic) (sinf : ℚ → ℚ)
    (regen attenuate lowpass drift in_l in_r : ℚ) :
    (g.tick sinf regen attenuate lowpass drift 1 in_l in_r).1.1
        = (g.tick sinf regen attenuate lowpass drift 1 in_l in_r).2.iirBL
          + dither (xorshift32 g.fpdL)
              (frexp_exp ((g.tick sinf regen attenuate lowpass drift 1 in_l in_r).2.iirBL)) ∧
    (g.tick sinf regen attenuate lowpass drift 1 in_l in_r).1.2
        = (g.tick sinf regen attenuate lowpass drift 1 in_l in_r).2.iirBR
          + dither (xorshift32 g.fpdR)
              (frexp_exp ((g.tick sinf regen attenuate lowpass drift 1 in_l in_r).2.iirBR)) := by
  constructor
  · simp only [Galactic.tick]
    rw [if_neg (by norm_num : ¬ (1:ℚ) < 1)]
  · simp only [Galactic.tick]
    rw [if_neg (by norm_num : ¬ (1:ℚ) < 1)]

/-- C7 (amended): `mix = 0` derives `wet = 0`, under which every output
sample equals the (denormal-substituted) dry sample plus the exponent-scaled
dither term — nonzero for ordinary small-magnitude samples (see the
counterexample at dry input 1.0), but identically zero whenever the sample's
`frexp` exponent is ≥ 2 (|sample| ≥ 2), because the source's
`2_u64.pow(exp + 62)` wraps to 0 there; `mix = 1` derives `wet = 1`, under
which the cross-fade is skipped and the output is the pure wet path (the
stage-B low-pass state) plus the same dither, with no dry term in the
cross-fade. -/
theorem galactic_mix_extremes :
    (∀ replace0 brightness0 detune0 size0 sqos : ℚ,
      (Galactic.derived replace0 brightness0 detune0 size0 0 sqos).2.2.2.2.2 = 0 ∧
      (Galactic.derived replace0 brightness0 detune0 size0 1 sqos).2.2.2.2.2 = 1) ∧
    (∀ (g : Galactic) (sinf : ℚ → ℚ) (regen attenuate lowpass drift in_l in_r : ℚ),
      (g.tick sinf regen attenuate lowpass drift 0 in_l in_r).1.1
        = (if |in_l| < 1.18e-23 then (g.fpdL : ℚ) * 1.18e-17 else in_l)
          + dither (xorshift32 g.fpdL)
              (frexp_exp (if |in_l| < 1.18e-23 then (g.fpdL : ℚ) * 1.18e-17 else in_l)) ∧
      (g.tick sinf regen attenuate lowpass drift 0 in_l in_r).1.2
        = (if |in_r| < 1.18e-23 then (g.fpdR : ℚ) * 1.18e-17 else in_r)
          + dither (xorshift32 g.fpdR)
              (frexp_exp (if |in_r| < 1.18e-23 then (g.fpdR : ℚ) * 1.18e-17 else in_r))) ∧
    (∀ (g : Galactic) (sinf : ℚ → ℚ) (regen attenuate lowpass drift in_l in_r : ℚ),
      (g.tick sinf regen attenuate lowpass drift 1 in_l in_r).1.1
        = (g.tick sinf regen attenuate lowpass drift 1 in_l in_r).2.iirBL
          + dither (xorshift32 g.fpdL)
              (frexp_exp ((g.tick sinf regen attenuate lowpass drift 1 in_l in_r).2.iirBL)) ∧
      (g.tick sinf regen attenuate lowpass drift 1 in_l in_r).1.2
        = (g.tick sinf regen attenuate lowpass drift 1 in_l in_r).2.iirBR
          + dither (xorshift32 g.fpdR)
              (frexp_exp ((g.tick sinf regen attenuate lowpass drift 1 in_l in_r).2.iirBR))) ∧
    (∀ fpd e : ℕ, 2 ≤ e → dither fpd e = 0) := by
  refine ⟨?_, ?_, ?_, ?_⟩
  · intro replace0 brightness0 detune0 size0 sqos
    constructor
    · show (1 : ℚ) - (1 - 0) ^ 3 = 0
      norm_num
    · show (1 : ℚ) - (1 - 1) ^ 3 = 1
      norm_num
  · intro g sinf regen attenuate lowpass drift in_l in_r
    exact Galactic.tick_wet_zero g sinf regen attenuate lowpass drift in_l in_r
  · intro g sinf regen attenuate lowpass drift in_l in_r
    exact Galactic.tick_wet_one g sinf regen attenuate lowpass drift in_l in_r
  · intro fpd e he
    have hdvd : (2 ^ 64 : ℕ) ∣ 2 ^ (e + 62) := pow_dvd_pow 2 (by omega)
    have hmod : (2 ^ (e + 62) % 2 ^ 64 : ℕ) = 0 := Nat.dvd_iff_mod_eq_zero.mp hdvd
    rw [dither, hmod]
    norm_num

/-- A concrete `Galactic` state used to refute the literal reading of C7:
fresh short delays, the reference dither seed 16386, phase and filter
state as after construction. -/
def cexGalactic : Galactic :=
  { delays_left := (List.range 12).map (fun _ => StaticSampleDelay.new 1)
    delays_right := (List.range 12).map (fun _ => StaticSampleDelay.new 1)
    feedback := [[0, 0, 0, 0], [0, 0, 0, 0]]
    detune_delay_left := StaticSampleDelay.new 2
    detune_delay_right := StaticSampleDelay.new 2
    lowpass_pre := [0, 0]
    lowpass_post := [0, 0]
    fpdL := 16386
    fpdR := 16386
    oldfpd := 429496.7295
    vibM := 3
    iirAL := 0
    iirAR := 0
    iirBL := 0
    iirBR := 0 }

/-- C7 fails on the code as literally stated: with `mix = 0` and dry input
1.0, the left output sample is `1 + dither ≠ 1`, because the exponent-scaled
dither is added after the cross-fade. -/
theorem galactic_mix_zero_counterexample :
    (cexGalactic.process (fun _ => 0) [1] [1] [1] [1] [1] [0] [0] 44100 1).1.1 ≠ [1] := by
  simp only [Galactic.process, Galactic.derived, List.getD_cons_zero, List.zip_cons_cons,
    List.zip_nil_right, List.foldl_cons, List.foldl_nil]
  rw [show (1 : ℚ) - (1 - 0) ^ 3 = 0 from by norm_num]
  rw [(Galactic.tick_wet_zero _ _ _ _ _ _ _ _).1]
  rw [if_neg (by norm_num : ¬ |(1:ℚ)| < 1.18e-23)]
  have hfpd : ({ cexGalactic with
      delays_left := cexGalactic.delays_left.map
        (fun d => d.set_delay_length_fraction ((1:ℚ) * 0.9 + 0.1))
      delays_right := cexGalactic.delays_right.map
        (fun d => d.set_delay_length_fraction ((1:ℚ) * 0.9 + 0.1)) } : Galactic).fpdL
      = 16386 := rfl
  rw [hfpd]
  have hxs : xorshift32 16386 = 134251586 := by decide
  have hexp : frexp_exp 1 = 1 := by
    rw [frexp_exp, if_neg (by norm_num : ¬ (1:ℚ) = 0), abs_one, Int.log_one_right]
    rfl
  rw [hxs, hexp]
  have hdither : dither 134251586 1 ≠ 0 := by
    rw [dither]
    norm_num
  intro h
  simp only [List.nil_append, List.cons.injEq, and_true] at h
  exact hdither (by linarith)

/-- C10: `Galactic::process` reads every control sequence only at index 0:
two calls from the same state with the same audio input whose control
sequences agree at index 0 produce identical results, whatever the later
control values are. -/
theorem galactic_controls_block_constant (g : Galactic) (sinf : ℚ → ℚ)
    (left right s1 s2 rep1 rep2 b1 b2 d1 d2 m1 m2 : List ℚ) (sr sqos : ℚ)
    (hs : s1.getD 0 0 = s2.getD 0 0) (hrep : rep1.getD 0 0 = rep2.getD 0 0)
    (hb : b1.getD 0 0 = b2.getD 0 0) (hd : d1.getD 0 0 = d2.getD 0 0)
    (hm : m1.getD 0 0 = m2.getD 0 0) :
    g.process sinf left right s1 rep1 b1 d1 m1 sr sqos
      = g.process sinf left right s2 rep2 b2 d2 m2 sr sqos := by
  unfold Galactic.process
  rw [hs, hrep, hb, hd, hm]

/-- Witness for C10: control sequences that agree at index 0 but differ at
index 1 drive the engine identically. -/
theorem galactic_controls_block_constant_witness :
    (([(1:ℚ), 5] : List ℚ).getD 0 0 = ([(1:ℚ), -5] : List ℚ).getD 0 0) ∧
    cexGalactic.process (fun _ => 0) [1] [1] [1, 5] [1, 6] [1, 7] [0, 8] [0, 9] 44100 1
      = cexGalactic.process (fun _ => 0) [1] [1] [1, -5] [1, -6] [1, -7] [0, -8] [0, -9] 44100 1 :=
  ⟨rfl, galactic_controls_block_constant cexGalactic (fun _ => 0) [1] [1]
    [1, 5] [1, -5] [1, 6] [1, -6] [1, 7] [1, -7] [0, 8] [0, -8] [0, 9] [0, -9] 44100 1
    rfl rfl rfl rfl rfl⟩

theorem sumsq_set (l : List ℚ) (p : ℕ) (v : ℚ) (h : p < l.length) :
    ((l.set p v).map (fun x => x ^ 2)).sum
      = (l.map (fun x => x ^ 2)).sum - (l.getD p 0) ^ 2 + v ^ 2 := by
  induction l generalizing p with
  | nil => simp at h
  | cons a l ih =>
    cases p with
    | zero =>
      simp only [List.set_cons_zero, List.map_cons, List.sum_cons, List.getD_cons_zero]
      ring
    | succ p =>
      simp only [List.set_cons_succ, List.map_cons, List.sum_cons, List.getD_cons_succ]
      rw [ih p (by simpa using h)]
      ring

namespace Luff

theorem transpose_cols8 (x1 x2 x3 x4 x5 x6 x7 x8 : ℚ) :
    List.transpose [[x1], [x2], [x3], [x4], [x5], [x6], [x7], [x8]]
      = [[x1, x2, x3, x4, x5, x6, x7, x8]] := by
  show (List.foldr List.transpose.go #[]
      [[x1], [x2], [x3], [x4], [x5], [x6], [x7], [x8]]).toList = _
  simp only [List.foldr_cons, List.foldr_nil]
  rw [show List.transpose.go [x8] #[] = #[[x8]] from rfl,
    show List.transpose.go [x7] #[[x8]] = #[[x7, x8]] from rfl,
    show List.transpose.go [x6] #[[x7, x8]] = #[[x6, x7, x8]] from rfl,
    show List.transpose.go [x5] #[[x6, x7, x8]] = #[[x5, x6, x7, x8]] from rfl,
    show List.transpose.go [x4] #[[x5, x6, x7, x8]] = #[[x4, x5, x6, x7, x8]] from rfl,
    show List.transpose.go [x3] #[[x4, x5, x6, x7, x8]] = #[[x3, x4, x5, x6, x7, x8]] from rfl,
    show List.transpose.go [x2] #[[x3, x4, x5, x6, x7, x8]]
      = #[[x2, x3, x4, x5, x6, x7, x8]] from rfl,
    show List.transpose.go [x1] #[[x2, x3, x4, x5, x6, x7, x8]]
      = #[[x1, x2, x3, x4, x5, x6, x7, x8]] from rfl]

theorem transpose_row8 (x1 x2 x3 x4 x5 x6 x7 x8 : ℚ) :
    List.transpose [[x1, x2, x3, x4, x5, x6, x7, x8]]
      = [[x1], [x2], [x3], [x4], [x5], [x6], [x7], [x8]] := by
  show (List.foldr List.transpose.go #[] [[x1, x2, x3, x4, x5, x6, x7, x8]]).toList = _
  simp only [List.foldr_cons, List.foldr_nil]
  rw [show List.transpose.go [x1, x2, x3, x4, x5, x6, x7, x8] #[]
      = #[[x1], [x2], [x3], [x4], [x5], [x6], [x7], [x8]] from rfl]

def zeroBlock : List (List ℚ) := List.replicate 8 [0]

def Tail.energy (t : Tail) (c : ℚ) : ℚ :=
  c * (t.delays.map (fun d => (d.buffer.map (fun v => v ^ 2)).sum)).sum
    + (1 - c) * (t.lowpasses.map (fun l => l.last_output ^ 2)).sum

def Tail.stepZero (t : Tail) (c sr : ℚ) : Tail :=
  (t.process_block zeroBlock [c] sr).2

def Tail.outZero (t : Tail) (c sr : ℚ) : ℚ :=
  ((t.process_block zeroBlock [c] sr).1.map (fun ch => (ch.map (fun v => v ^ 2)).sum)).sum

def Tail.stateAt (t : Tail) (c sr : ℚ) : ℕ → Tail
  | 0 => t
  | n + 1 => (t.stateAt c sr n).stepZero c sr

def Tail.Ok (t : Tail) : Prop :=
  t.delays.length = 8 ∧ t.lowpasses.length = 8 ∧
    ∀ d ∈ t.delays, d.length = d.buffer.length ∧ d.position < d.length

set_option maxHeartbeats 2000000 in
theorem Tail.stepZero_energy (t : Tail) (c sr : ℚ) (hOk : t.Ok)
    (hc0 : 0 < c) (hc1 : c ≤ 1) (hg0 : 0 ≤ t.feedback_gain) (hg1 : t.feedback_gain < 1) :
    (t.stepZero c sr).Ok ∧
      (t.stepZero c sr).energy c
          + c * (1 - t.feedback_gain ^ 2) * t.outZero c sr
        ≤ t.energy c := by
  obtain ⟨g, ds, ls⟩ := t
  obtain ⟨hd, hl, hmem⟩ := hOk
  simp only at hd hl hmem hg0 hg1
  match ds, hd, ls, hl with
  | [d1, d2, d3, d4, d5, d6, d7, d8], _, [l1, l2, l3, l4, l5, l6, l7, l8], _ =>
  obtain ⟨b1, p1, q1⟩ := d1
  obtain ⟨b2, p2, q2⟩ := d2
  obtain ⟨b3, p3, q3⟩ := d3
  obtain ⟨b4, p4, q4⟩ := d4
  obtain ⟨b5, p5, q5⟩ := d5
  obtain ⟨b6, p6, q6⟩ := d6
  obtain ⟨b7, p7, q7⟩ := d7
  obtain ⟨b8, p8, q8⟩ := d8
  obtain ⟨y1⟩ := l1
  obtain ⟨y2⟩ := l2
  obtain ⟨y3⟩ := l3
  obtain ⟨y4⟩ := l4
  obtain ⟨y5⟩ := l5
  obtain ⟨y6⟩ := l6
  obtain ⟨y7⟩ := l7
  obtain ⟨y8⟩ := l8
  have hm1 := hmem _ (by simp : (⟨b1, p1, q1⟩ : StaticSampleDelay) ∈ _)
  have hm2 := hmem _ (by simp : (⟨b2, p2, q2⟩ : StaticSampleDelay) ∈ _)
  have hm3 := hmem _ (by simp : (⟨b3, p3, q3⟩ : StaticSampleDelay) ∈ _)
  have hm4 := hmem _ (by simp : (⟨b4, p4, q4⟩ : StaticSampleDelay) ∈ _)
  have hm5 := hmem _ (by simp : (⟨b5, p5, q5⟩ : StaticSampleDelay) ∈ _)
  have hm6 := hmem _ (by simp : (⟨b6, p6, q6⟩ : StaticSampleDelay) ∈ _)
  have hm7 := hmem _ (by simp : (⟨b7, p7, q7⟩ : StaticSampleDelay) ∈ _)
  have hm8 := hmem _ (by simp : (⟨b8, p8, q8⟩ : StaticSampleDelay) ∈ _)
  simp only at hm1 hm2 hm3 hm4 hm5 hm6 hm7 hm8
  obtain ⟨hq1, hp1⟩ := hm1
  obtain ⟨hq2, hp2⟩ := hm2
  obtain ⟨hq3, hp3⟩ := hm3
  obtain ⟨hq4, hp4⟩ := hm4
  obtain ⟨hq5, hp5⟩ := hm5
  obtain ⟨hq6, hp6⟩ := hm6
  obtain ⟨hq7, hp7⟩ := hm7
  obtain ⟨hq8, hp8⟩ := hm8
  subst hq1 hq2 hq3 hq4 hq5 hq6 hq7 hq8
  have h8 : ((1 : ℕ) + 1 + 1 + 1 + 1 + 1 + 1 + 1) = 8 := rfl
  constructor
  · simp only [Tail.stepZero, Tail.process_block, zeroBlock, Tail.Ok,
      StaticSampleDelay.read_block, StaticSampleDelay.write_block_and_advance,
      OnePoleLpf.process, Householder.in_place,
      List.replicate, List.range, List.range.loop, List.map_cons, List.map_nil,
      List.zipWith_cons_cons, List.zipWith_nil_left, List.zipWith_nil_right,
      List.getD_cons_zero, List.length_cons, List.length_nil, Nat.add_zero, Nat.zero_add,
      transpose_cols8, transpose_row8, List.zip_cons_cons, List.zip_nil_right,
      List.foldl_cons, List.foldl_nil, List.sum_cons, List.sum_nil, add_zero,
      List.nil_append, h8, Nat.cast_ofNat, List.mem_cons, List.not_mem_nil,
      Nat.mod_eq_of_lt hp1, Nat.mod_eq_of_lt hp2, Nat.mod_eq_of_lt hp3,
      Nat.mod_eq_of_lt hp4, Nat.mod_eq_of_lt hp5, Nat.mod_eq_of_lt hp6,
      Nat.mod_eq_of_lt hp7, Nat.mod_eq_of_lt hp8, List.length_set, or_false]
    refine ⟨trivial, trivial, ?_⟩
    intro d hd'
    rcases hd' with h | h | h | h | h | h | h | h <;>
      (rw [h]; exact ⟨by simp, Nat.mod_lt _ (by omega)⟩)
  · simp only [Tail.stepZero, Tail.outZero, Tail.energy, Tail.process_block, zeroBlock,
      StaticSampleDelay.read_block, StaticSampleDelay.write_block_and_advance,
      OnePoleLpf.process, Householder.in_place,
      List.replicate, List.range, List.range.loop, List.map_cons, List.map_nil,
      List.zipWith_cons_cons, List.zipWith_nil_left, List.zipWith_nil_right,
      List.getD_cons_zero, List.length_cons, List.length_nil, Nat.add_zero, Nat.zero_add,
      transpose_cols8, transpose_row8, List.zip_cons_cons, List.zip_nil_right,
      List.foldl_cons, List.foldl_nil, List.sum_cons, List.sum_nil, add_zero,
      List.nil_append, h8, Nat.cast_ofNat,
      Nat.mod_eq_of_lt hp1, Nat.mod_eq_of_lt hp2, Nat.mod_eq_of_lt hp3,
      Nat.mod_eq_of_lt hp4, Nat.mod_eq_of_lt hp5, Nat.mod_eq_of_lt hp6,
      Nat.mod_eq_of_lt hp7, Nat.mod_eq_of_lt hp8]
    rw [sumsq_set b1 p1 _ hp1, sumsq_set b2 p2 _ hp2, sumsq_set b3 p3 _ hp3,
      sumsq_set b4 p4 _ hp4, sumsq_set b5 p5 _ hp5, sumsq_set b6 p6 _ hp6,
      sumsq_set b7 p7 _ hp7, sumsq_set b8 p8 _ hp8]
    generalize b1.getD p1 0 = x1
    generalize b2.getD p2 0 = x2
    generalize b3.getD p3 0 = x3
    generalize b4.getD p4 0 = x4
    generalize b5.getD p5 0 = x5
    generalize b6.getD p6 0 = x6
    generalize b7.getD p7 0 = x7
    generalize b8.getD p8 0 = x8
    generalize (List.map (fun x => x ^ 2) b1).sum = B1
    generalize (List.map (fun x => x ^ 2) b2).sum = B2
    generalize (List.map (fun x => x ^ 2) b3).sum = B3
    generalize (List.map (fun x => x ^ 2) b4).sum = B4
    generalize (List.map (fun x => x ^ 2) b5).sum = B5
    generalize (List.map (fun x => x ^ 2) b6).sum = B6
    generalize (List.map (fun x => x ^ 2) b7).sum = B7
    generalize (List.map (fun x => x ^ 2) b8).sum = B8
    linarith [mul_nonneg (mul_nonneg hc0.le (sub_nonneg.2 hc1)) (sq_nonneg (y1 - g * (x1 + (x1 + x2 + x3 + x4 + x5 + x6 + x7 + x8) * (-2 / 8)))),
      mul_nonneg (mul_nonneg hc0.le (sub_nonneg.2 hc1)) (sq_nonneg (y2 - g * (x2 + (x1 + x2 + x3 + x4 + x5 + x6 + x7 + x8) * (-2 / 8)))),
      mul_nonneg (mul_nonneg hc0.le (sub_nonneg.2 hc1)) (sq_nonneg (y3 - g * (x3 + (x1 + x2 + x3 + x4 + x5 + x6 + x7 + x8) * (-2 / 8)))),
      mul_nonneg (mul_nonneg hc0.le (sub_nonneg.2 hc1)) (sq_nonneg (y4 - g * (x4 + (x1 + x2 + x3 + x4 + x5 + x6 + x7 + x8) * (-2 / 8)))),
      mul_nonneg (mul_nonneg hc0.le (sub_nonneg.2 hc1)) (sq_nonneg (y5 - g * (x5 + (x1 + x2 + x3 + x4 + x5 + x6 + x7 + x8) * (-2 / 8)))),
      mul_nonneg (mul_nonneg hc0.le (sub_nonneg.2 hc1)) (sq_nonneg (y6 - g * (x6 + (x1 + x2 + x3 + x4 + x5 + x6 + x7 + x8) * (-2 / 8)))),
      mul_nonneg (mul_nonneg hc0.le (sub_nonneg.2 hc1)) (sq_nonneg (y7 - g * (x7 + (x1 + x2 + x3 + x4 + x5 + x6 + x7 + x8) * (-2 / 8)))),
      mul_nonneg (mul_nonneg hc0.le (sub_nonneg.2 hc1)) (sq_nonneg (y8 - g * (x8 + (x1 + x2 + x3 + x4 + x5 + x6 + x7 + x8) * (-2 / 8))))]


theorem Tail.outZero_nonneg (t : Tail) (c sr : ℚ) : 0 ≤ t.outZero c sr := by
  unfold Tail.outZero
  apply List.sum_nonneg
  intro q hq
  simp only [List.mem_map] at hq
  obtain ⟨ch, _, rfl⟩ := hq
  apply List.sum_nonneg
  intro r hr
  simp only [List.mem_map] at hr
  obtain ⟨v, _, rfl⟩ := hr
  positivity

theorem Tail.energy_nonneg (t : Tail) (c : ℚ) (hc0 : 0 ≤ c) (hc1 : c ≤ 1) :
    0 ≤ t.energy c := by
  unfold Tail.energy
  have h1 : (0 : ℚ) ≤ (t.delays.map (fun d => (d.buffer.map (fun v => v ^ 2)).sum)).sum := by
    apply List.sum_nonneg
    intro q hq
    simp only [List.mem_map] at hq
    obtain ⟨d, _, rfl⟩ := hq
    apply List.sum_nonneg
    intro r hr
    simp only [List.mem_map] at hr
    obtain ⟨v, _, rfl⟩ := hr
    positivity
  have h2 : (0 : ℚ) ≤ (t.lowpasses.map (fun l => l.last_output ^ 2)).sum := by
    apply List.sum_nonneg
    intro q hq
    simp only [List.mem_map] at hq
    obtain ⟨l, _, rfl⟩ := hq
    positivity
  have := mul_nonneg hc0 h1
  have := mul_nonneg (by linarith : (0 : ℚ) ≤ 1 - c) h2
  linarith

theorem Tail.stepZero_feedback (t : Tail) (c sr : ℚ) :
    (t.stepZero c sr).feedback_gain = t.feedback_gain := rfl

set_option maxHeartbeats 800000 in
/-- C4: the `luffverb.rs` `Tail` (`Tail::process_block`, 8 channels,
Householder feedback matrix, per-channel one-pole low-pass) driven with
all-zero input blocks, a constant stable low-pass coefficient `0 < c ≤ 1`
and feedback gain `0 ≤ g < 1`: the damping-weighted loop energy (buffers
plus filter states) never increases from one block to the next, it bounds
the accumulated output energy of all blocks, at most a bounded number of
blocks can have output energy ≥ ε (the count is bounded by
`energy / (c·(1−g²)·ε)`), and past some block index every output block
has energy below ε — the output decays to zero. -/
theorem tail_zero_input_decay (t : Tail) (c sr : ℚ) (hOk : t.Ok)
    (hc0 : 0 < c) (hc1 : c ≤ 1)
    (hg0 : 0 ≤ t.feedback_gain) (hg1 : t.feedback_gain < 1) :
    (∀ n, (t.stateAt c sr (n + 1)).energy c ≤ (t.stateAt c sr n).energy c) ∧
    (∀ n, (t.stateAt c sr n).energy c
        + c * (1 - t.feedback_gain ^ 2)
          * ((Finset.range n).sum (fun k => (t.stateAt c sr k).outZero c sr))
      ≤ t.energy c) ∧
    (∀ ε : ℚ, 0 < ε → ∀ n,
      c * (1 - t.feedback_gain ^ 2) * ε
          * ((((Finset.range n).filter
              (fun k => ε ≤ (t.stateAt c sr k).outZero c sr)).card : ℚ))
        ≤ t.energy c) ∧
    (∀ ε : ℚ, 0 < ε → ∃ T, ∀ k, T ≤ k → (t.stateAt c sr k).outZero c sr < ε) := by
  have hδ : 0 < 1 - t.feedback_gain ^ 2 := by nlinarith
  have hcδ : 0 ≤ c * (1 - t.feedback_gain ^ 2) := le_of_lt (mul_pos hc0 hδ)
  have hfb : ∀ n, (t.stateAt c sr n).feedback_gain = t.feedback_gain := by
    intro n
    induction n with
    | zero => rfl
    | succ n ih => rw [Tail.stateAt, Tail.stepZero_feedback, ih]
  have hOkAll : ∀ n, (t.stateAt c sr n).Ok := by
    intro n
    induction n with
    | zero => exact hOk
    | succ n ih =>
      exact (Tail.stepZero_energy (t.stateAt c sr n) c sr ih hc0 hc1
        (by rw [hfb n]; exact hg0) (by rw [hfb n]; exact hg1)).1
  have hstep : ∀ n, (t.stateAt c sr (n + 1)).energy c
      + c * (1 - t.feedback_gain ^ 2) * ((t.stateAt c sr n).outZero c sr)
      ≤ (t.stateAt c sr n).energy c := by
    intro n
    have h := (Tail.stepZero_energy (t.stateAt c sr n) c sr (hOkAll n) hc0 hc1
      (by rw [hfb n]; exact hg0) (by rw [hfb n]; exact hg1)).2
    rw [hfb n] at h
    exact h
  have hmono : ∀ n, (t.stateAt c sr (n + 1)).energy c ≤ (t.stateAt c sr n).energy c := by
    intro n
    have h1 := hstep n
    have h2 := Tail.outZero_nonneg (t.stateAt c sr n) c sr
    nlinarith
  have htel : ∀ n, (t.stateAt c sr n).energy c
      + c * (1 - t.feedback_gain ^ 2)
        * ((Finset.range n).sum (fun k => (t.stateAt c sr k).outZero c sr))
      ≤ t.energy c := by
    intro n
    induction n with
    | zero => simp [Tail.stateAt]
    | succ n ih =>
      rw [Finset.sum_range_succ]
      have h1 := hstep n
      nlinarith
  have hcount : ∀ ε : ℚ, 0 < ε → ∀ n,
      c * (1 - t.feedback_gain ^ 2) * ε
          * ((((Finset.range n).filter
              (fun k => ε ≤ (t.stateAt c sr k).outZero c sr)).card : ℚ))
        ≤ t.energy c := by
    intro ε hε n
    have hEn := Tail.energy_nonneg (t.stateAt c sr n) c hc0.le hc1
    have hts := htel n
    have hcard : ((((Finset.range n).filter
        (fun k => ε ≤ (t.stateAt c sr k).outZero c sr)).card : ℚ)) * ε
        ≤ ((Finset.range n).filter
            (fun k => ε ≤ (t.stateAt c sr k).outZero c sr)).sum
          (fun k => (t.stateAt c sr k).outZero c sr) := by
      have := Finset.card_nsmul_le_sum
        ((Finset.range n).filter (fun k => ε ≤ (t.stateAt c sr k).outZero c sr))
        (fun k => (t.stateAt c sr k).outZero c sr) ε
        (fun i hi => (Finset.mem_filter.1 hi).2)
      simpa [nsmul_eq_mul] using this
    have hsub : ((Finset.range n).filter
          (fun k => ε ≤ (t.stateAt c sr k).outZero c sr)).sum
            (fun k => (t.stateAt c sr k).outZero c sr)
        ≤ (Finset.range n).sum (fun k => (t.stateAt c sr k).outZero c sr) :=
      Finset.sum_le_sum_of_subset_of_nonneg (Finset.filter_subset _ _)
        (fun i _ _ => Tail.outZero_nonneg (t.stateAt c sr i) c sr)
    have h1 := mul_le_mul_of_nonneg_left hcard hcδ
    have h2 := mul_le_mul_of_nonneg_left hsub hcδ
    nlinarith
  refine ⟨hmono, htel, hcount, ?_⟩
  intro ε hε
  have hcδε : 0 < c * (1 - t.feedback_gain ^ 2) * ε := mul_pos (mul_pos hc0 hδ) hε
  have hfin : {k : ℕ | ε ≤ (t.stateAt c sr k).outZero c sr}.Finite := by
    by_contra hinf
    obtain ⟨K, hK⟩ := exists_nat_gt (t.energy c / (c * (1 - t.feedback_gain ^ 2) * ε))
    obtain ⟨s, hs_sub, hs_card⟩ := Set.Infinite.exists_subset_card_eq hinf (K + 1)
    have hne : s.Nonempty := by
      rw [← Finset.card_pos, hs_card]
      omega
    have hsub2 : s ⊆ (Finset.range (s.max' hne + 1)).filter
        (fun k => ε ≤ (t.stateAt c sr k).outZero c sr) := by
      intro k hk
      rw [Finset.mem_filter, Finset.mem_range]
      exact ⟨Nat.lt_succ_of_le (Finset.le_max' s k hk), hs_sub hk⟩
    have hcard_le : K + 1 ≤ ((Finset.range (s.max' hne + 1)).filter
        (fun k => ε ≤ (t.stateAt c sr k).outZero c sr)).card := by
      rw [← hs_card]
      exact Finset.card_le_card hsub2
    have hmain := hcount ε hε (s.max' hne + 1)
    have hcast : ((K : ℚ) + 1) ≤ ((((Finset.range (s.max' hne + 1)).filter
        (fun k => ε ≤ (t.stateAt c sr k).outZero c sr)).card : ℚ)) := by
      exact_mod_cast hcard_le
    rw [div_lt_iff₀ hcδε] at hK
    have h3 := mul_le_mul_of_nonneg_left hcast hcδε.le
    nlinarith
  obtain ⟨B, hB⟩ := hfin.bddAbove
  refine ⟨B + 1, fun k hk => ?_⟩
  by_contra hge
  push_neg at hge
  have hkS : k ∈ {k : ℕ | ε ≤ (t.stateAt c sr k).outZero c sr} := hge
  have := hB hkS
  omega


end Luff

/-- A concrete `luffverb.rs` Tail state: feedback gain 1/2, every channel a
two-sample delay line holding an impulse, every low-pass state 1. -/
def cexLuffTail : Luff.Tail :=
  { feedback_gain := 1 / 2
    delays := (List.range 8).map
      (fun _ => { buffer := [1, 0], position := 0, length := 2 })
    lowpasses := (List.range 8).map (fun _ => { last_output := 1 }) }

theorem tail_zero_input_decay_witness :
    cexLuffTail.Ok ∧ (0 : ℚ) < 1 / 2 ∧ (1 / 2 : ℚ) ≤ 1
      ∧ 0 ≤ cexLuffTail.feedback_gain ∧ cexLuffTail.feedback_gain < 1
      ∧ (∀ ε : ℚ, 0 < ε → ∃ T, ∀ k, T ≤ k →
          (cexLuffTail.stateAt (1 / 2) 44100 k).outZero (1 / 2) 44100 < ε) :=
  ⟨by unfold Luff.Tail.Ok; with_unfolding_all decide, by norm_num, by norm_num,
   by norm_num [cexLuffTail], by norm_num [cexLuffTail],
   (Luff.tail_zero_input_decay cexLuffTail (1 / 2) 44100
      (by unfold Luff.Tail.Ok; with_unfolding_all decide) (by norm_num) (by norm_num)
      (by norm_num [cexLuffTail]) (by norm_num [cexLuffTail])).2.2.2⟩
